import Mathlib

/-!
Verification model of the golossus/di dependency-injection container.

The embedding follows the Go sources: the definition registry and its tag
interpretation (`newDefinition`, `parseBoolTag`, `parseIntegerTag`,
`selectKindTag`, `mergeTags`), the builder operations (`setDefinition`,
`setValue`, `setFactory`, `setAlias`, `getTaggedKeys`, `getContainer`) and
the resolution engine (`container.Get`, `container.construct`,
`container.unseal`, `container.MustBuild`).  Where the repository contains
several revisions of a file, the newest revision is modelled (the one with
the shared-only instance cache, the loading-stack pop after a factory call,
and `MustBuild`), which is the revision the rest of the code and the test
suite build against.

Go specifics kept explicit in the model:
* Go maps are represented as association lists; `lookupA` models map access
  and `setK` models map assignment.  Where the Go code ranges over a map
  (whose iteration order is unspecified), the model takes the iteration
  sequence as an explicit argument (`enum`), which may be any permutation of
  the map's entries.
* Service factories (`func(Container) interface{}`) are modelled as a pair
  of a factory identity `factoryId` (the Go function value, used to count
  invocations) and a body `FExp` describing what the factory does with the
  container it receives.  Produced service values are modelled as `Nat`.
* Go panics are modelled as error results.  A panic does not roll back
  mutations already performed, so the resolution interpreter returns its
  final state alongside the error.
-/

namespace Di

abbrev Key := String

/-- Association-list lookup; models Go map read access `m[k]`. -/
def lookupA {β : Type} : List (Key × β) → Key → Option β
  | [], _ => none
  | (a, b) :: rest, k => if a = k then some b else lookupA rest k

/-- Association-list update; models Go map assignment `m[k] = v`
(replaces the entry if present, otherwise appends). -/
def setK {β : Type} : List (Key × β) → Key → β → List (Key × β)
  | [], k, v => [(k, v)]
  | (a, b) :: rest, k, v => if a = k then (k, v) :: rest else (a, b) :: setK rest k v

/-- Lookup over `Nat`-keyed association lists (factory identities). -/
def lookupN : List (Nat × Nat) → Nat → Option Nat
  | [], _ => none
  | (a, b) :: rest, k => if a = k then some b else lookupN rest k

/-- Update over `Nat`-keyed association lists. -/
def setN : List (Nat × Nat) → Nat → Nat → List (Nat × Nat)
  | [], k, v => [(k, v)]
  | (a, b) :: rest, k, v => if a = k then (k, v) :: rest else (a, b) :: setN rest k v

/-- Invocation count of factory `fid` (0 when never invoked). -/
def countOf (calls : List (Nat × Nat)) (fid : Nat) : Nat :=
  (lookupN calls fid).getD 0

/-- Record one more invocation of factory `fid`. -/
def bump (calls : List (Nat × Nat)) (fid : Nat) : List (Nat × Nat) :=
  setN calls fid (countOf calls fid + 1)

/-- Body of a service factory: what the Go closure does with the container
argument it receives.  `lit` returns a constant, `cnt` returns the number of
times this factory has been invoked (a counting factory), `get` resolves a
dependency and returns it, `add` resolves two subexpressions in sequence and
returns their sum. -/
inductive FExp : Type where
  | lit (n : Nat)
  | cnt
  | get (k : Key)
  | add (a b : FExp)
deriving DecidableEq, Repr

/-- The `definition` record of definition.go: factory (split into identity
and body), merged tags, derived priority/shared/private/kind, and the
aliased definition for aliases (`AliasOf *definition`). -/
inductive Defn : Type where
  | mk (factoryId : Nat) (body : FExp) (Tags : List (String × String))
       (Priority : Int) (Shared : Bool) (Private : Bool) (Kind : String)
       (AliasOf : Option Defn)

def Defn.factoryId : Defn → Nat
  | .mk v _ _ _ _ _ _ _ => v

def Defn.body : Defn → FExp
  | .mk _ v _ _ _ _ _ _ => v

def Defn.Tags : Defn → List (String × String)
  | .mk _ _ v _ _ _ _ _ => v

def Defn.Priority : Defn → Int
  | .mk _ _ _ v _ _ _ _ => v

def Defn.Shared : Defn → Bool
  | .mk _ _ _ _ v _ _ _ => v

def Defn.Private : Defn → Bool
  | .mk _ _ _ _ _ v _ _ => v

def Defn.Kind : Defn → String
  | .mk _ _ _ _ _ _ v _ => v

def Defn.AliasOf : Defn → Option Defn
  | .mk _ _ _ _ _ _ _ v => v

/-- Replace the `AliasOf` field; models the Go assignment `d.AliasOf = aliased`
performed on the stored definition pointer. -/
def Defn.withAliasOf : Defn → Option Defn → Defn
  | .mk a b c d e f g _, ao => .mk a b c d e f g ao

abbrev Registry := List (Key × Defn)

/-- Errors raised (as panics) while declaring definitions. -/
inductive DefErr : Type where
  | invalidBool (tag val : String)
  | invalidInt (tag val : String)
  | kindConflict (tag : String)
deriving DecidableEq, Repr

/-- Errors raised (as panics) by the builder API. -/
inductive BuildErr : Type where
  | resolved
  | defError (e : DefErr) (key : Key)
  | aliasKeyExists (key : Key)
  | aliasTargetMissing (target : Key)
deriving DecidableEq, Repr

/-- Go's strconv.ParseBool: accepts 1, t, T, TRUE, true, True as true and
0, f, F, FALSE, false, False as false; anything else is a syntax error. -/
def goParseBool (s : String) : Option Bool :=
  if s = "1" ∨ s = "t" ∨ s = "T" ∨ s = "TRUE" ∨ s = "true" ∨ s = "True" then some true
  else if s = "0" ∨ s = "f" ∨ s = "F" ∨ s = "FALSE" ∨ s = "false" ∨ s = "False" then some false
  else none

/-- Decimal digit value, or none. -/
def digitVal (c : Char) : Option Nat :=
  if c.isDigit then some (c.toNat - '0'.toNat) else none

/-- Parse an unsigned decimal numeral. -/
def parseDigits : List Char → Option Nat
  | [] => none
  | cs => cs.foldl (fun acc c => match acc, digitVal c with
      | some n, some d => some (n * 10 + d)
      | _, _ => none) (some 0)

/-- Go's strconv.ParseInt with base 10 and bitSize 16: an optional sign
followed by decimal digits, with the value required to fit in int16. -/
def goParseInt16 (s : String) : Option Int :=
  let parseAbs : List Char → Option Int := fun cs => (parseDigits cs).map Int.ofNat
  let v : Option Int :=
    match s.toList with
    | '+' :: rest => parseAbs rest
    | '-' :: rest => (parseAbs rest).map Int.neg
    | cs => parseAbs cs
  match v with
  | some n => if -32768 ≤ n ∧ n ≤ 32767 then some n else none
  | none => none

/-- parseBoolTag of definition.go: absent tag yields false, empty value
yields true, otherwise strconv.ParseBool decides; an unparsable value is the
error "(tag) tag value '(val)' is not a valid boolean". -/
def parseBoolTag (tagName : String) (tags : List (String × String)) : Except DefErr Bool :=
  match lookupA tags tagName with
  | none => .ok false
  | some v =>
    if v = "" then .ok true
    else match goParseBool v with
      | some b => .ok b
      | none => .error (.invalidBool tagName v)

/-- parseIntegerTag of definition.go: absent or empty yields 0, otherwise
strconv.ParseInt base 10 bitSize 16; an unparsable value is the error
"(tag) tag value '(val)' is not a valid number". -/
def parseIntegerTag (tagName : String) (tags : List (String × String)) : Except DefErr Int :=
  match lookupA tags tagName with
  | none => .ok 0
  | some v =>
    if v = "" then .ok 0
    else match goParseInt16 v with
      | some n => .ok n
      | none => .error (.invalidInt tagName v)

/-- The reserved kind tags, in the order the Go slice kindTags lists them. -/
def kindTags : List String := ["factory", "value", "alias", "inject"]

/-- selectKindTag of definition.go: scan kindTags, default "factory"; more
than one present is the conflict error naming the last kind tag found. -/
def selectKindTag (tags : List (String × String)) : Except DefErr String :=
  let r := kindTags.foldl
    (fun (acc : String × Nat) t =>
      if (lookupA tags t).isSome then (t, acc.2 + 1) else acc)
    ("factory", 0)
  if r.2 > 1 then .error (.kindConflict r.1) else .ok r.1

/-- mergeTags of definition.go merges a list of tag maps, earlier entries
winning on conflicts.  With association lists whose lookup returns the first
match, concatenation realises exactly that first-wins merge. -/
def mergeTags (tagsList : List (List (String × String))) : List (String × String) :=
  tagsList.flatten

/-- newDefinition of definition.go: merge the tag maps, derive priority,
shared, private and kind (failing on the first invalid tag), and produce the
definition record with AliasOf unset. -/
def newDefinition (factoryId : Nat) (body : FExp) (tagsList : List (List (String × String))) :
    Except DefErr Defn := do
  let tags := mergeTags tagsList
  let priority ← parseIntegerTag "priority" tags
  let shared ← parseBoolTag "shared" tags
  let priv ← parseBoolTag "private" tags
  let kind ← selectKindTag tags
  return .mk factoryId body tags priority shared priv kind none

/-- Provider / Resolver callbacks receive the builder and may mutate its
definition registry through the public builder API; their effect on the
registry is modelled as a registry transformer. -/
abbrev Callback := Registry → Registry

/-- The containerBuilder record: keyed definitions (kept in registration
order; `setK` replaces in place like a Go map assignment), the registered
provider and resolver callbacks, and the resolved flag. -/
structure Builder : Type where
  definitions : Registry
  providers : List Callback
  resolvers : List Callback
  resolved : Bool

/-- NewContainerBuilder: empty registry, no callbacks, not resolved. -/
def newContainerBuilder : Builder :=
  { definitions := [], providers := [], resolvers := [], resolved := false }

/-- setDefinition of container_builder.go: panics (errors) when the builder
is already resolved, builds the definition from the factory and the tag maps
(the kind tag appended by the caller included), stores it under the key
(silently replacing any existing definition) and returns it.  The claims
register services with bare keys and explicit tag maps, so the tag-in-key
path of parseKey is not exercised; on a key without '#', parseKey returns
the key itself and no tags. -/
def setDefinition (b : Builder) (key : Key) (factoryId : Nat) (body : FExp)
    (tagsList : List (List (String × String))) : Except BuildErr (Builder × Defn) :=
  if b.resolved then .error .resolved
  else
    match newDefinition factoryId body tagsList with
    | .error e => .error (.defError e key)
    | .ok d => .ok ({ b with definitions := setK b.definitions key d }, d)

/-- SetValue: a factory that ignores the container and returns the given
value, implicitly tagged value. -/
def setValue (b : Builder) (key : Key) (factoryId : Nat) (n : Nat)
    (tagsList : List (List (String × String))) : Except BuildErr (Builder × Defn) :=
  setDefinition b key factoryId (.lit n) (tagsList ++ [[("value", "")]])

/-- SetFactory: registers the factory as-is, implicitly tagged factory. -/
def setFactory (b : Builder) (key : Key) (factoryId : Nat) (body : FExp)
    (tagsList : List (List (String × String))) : Except BuildErr (Builder × Defn) :=
  setDefinition b key factoryId body (tagsList ++ [[("factory", "")]])

/-- Target-existence check and registration step of SetAlias (run after the
key-collision check): requires the target to be registered, registers under
`key` a definition copying the target's factory, implicitly tagged alias,
and records AliasOf on the stored definition. -/
def setAliasChecked (b : Builder) (key target : Key)
    (tagsList : List (List (String × String))) : Except BuildErr (Builder × Defn) :=
  match lookupA b.definitions target with
  | none => .error (.aliasTargetMissing target)
  | some aliased =>
    match setDefinition b key aliased.factoryId aliased.body
        (tagsList ++ [[("alias", "")]]) with
    | .error e => .error e
    | .ok (b1, d) =>
      let d1 := d.withAliasOf (some aliased)
      .ok ({ b1 with definitions := setK b1.definitions key d1 }, d1)

/-- SetAlias of container_builder.go: fails when `key` already names a
non-alias definition, fails when the target is not registered, otherwise
registers the alias via `setAliasChecked`. -/
def setAlias (b : Builder) (key target : Key)
    (tagsList : List (List (String × String))) : Except BuildErr (Builder × Defn) :=
  match lookupA b.definitions key with
  | some d0 =>
    match d0.AliasOf with
    | none => .error (.aliasKeyExists key)
    | some _ => setAliasChecked b key target tagsList
  | none => setAliasChecked b key target tagsList

/-- HasDefinition. -/
def hasDefinition (b : Builder) (key : Key) : Bool :=
  (lookupA b.definitions key).isSome

/-- GetDefinition: the stored definition, or none (Go returns nil). -/
def getDefinition (b : Builder) (key : Key) : Option Defn :=
  lookupA b.definitions key

/-- AddProvider (ignoring the empty-slice fast path, which adds nothing). -/
def addProvider (b : Builder) (ps : List Callback) : Except BuildErr Builder :=
  if ps.isEmpty then .ok b
  else if b.resolved then .error .resolved
  else .ok { b with providers := b.providers ++ ps }

/-- AddResolver. -/
def addResolver (b : Builder) (rs : List Callback) : Except BuildErr Builder :=
  if rs.isEmpty then .ok b
  else if b.resolved then .error .resolved
  else .ok { b with resolvers := b.resolvers ++ rs }

/-- The filter applied by GetTaggedKeys to one definition: it must carry the
tag, and when `values` is non-empty the tag's value must equal one of them. -/
def tagMatches (tag : String) (values : List String) (d : Defn) : Bool :=
  match lookupA d.Tags tag with
  | none => false
  | some tv => values.isEmpty || values.contains tv

/-- Stable insertion (descending priority): the new element goes in front of
the first strictly lower-priority element, hence after every element of
priority greater than or equal to its own. -/
def insertByPriority (x : Key × Defn) : List (Key × Defn) → List (Key × Defn)
  | [] => [x]
  | y :: ys =>
    if y.2.Priority < x.2.Priority then x :: y :: ys else y :: insertByPriority x ys

/-- Extensional model of sort.SliceStable with the comparison
`priority i > priority j`: a stable sort by descending priority (the stable
sort of a list under a fixed comparison is unique). -/
def sortByPriority (l : List (Key × Defn)) : List (Key × Defn) :=
  l.foldl (fun acc x => insertByPriority x acc) []

/-- GetTaggedKeys of container_builder.go: range over the definitions map in
iteration order `enum` (any permutation of the registry entries - Go map
iteration order is unspecified), keep the entries whose tags match, stable
sort by descending priority, and return the keys. -/
def getTaggedKeys (tag : String) (values : List String) (enum : List (Key × Defn)) : List Key :=
  (sortByPriority (enum.filter (fun kd => tagMatches tag values kd.2))).map (fun kd => kd.1)

/-- One recorded callback invocation during GetContainer: provider `i` or
resolver `i` (position in its registration list). -/
inductive CbEvent : Type where
  | prov (i : Nat)
  | res (i : Nat)
deriving DecidableEq, Repr

/-- Run a list of callbacks in order over the registry, recording one event
per invocation; models the `for ... { p.Provide(c) }` loops. -/
def runCallbacks (mk : Nat → CbEvent) (i : Nat) (cbs : List Callback) (reg : Registry) :
    Registry × List CbEvent :=
  match cbs with
  | [] => (reg, [])
  | cb :: rest =>
    let r := runCallbacks mk (i + 1) rest (cb reg)
    (r.1, mk i :: r.2)

/-- A resolution session: the sealed registry view, the instance cache, the
sealed flag and the loading stack of the container struct. -/
structure Container : Type where
  defs : Registry
  instances : List (Key × Nat)
  sealed : Bool
  loading : List Key

/-- GetContainer of container_builder.go: on the first call run every
provider then every resolver (each once, in registration order) and mark the
builder resolved; every call returns a fresh session (empty instance cache,
sealed, empty loading stack) over the builder's registry.  The returned
trace lists the callback invocations this call performed. -/
def getContainer (b : Builder) : Builder × List CbEvent × Container :=
  if b.resolved then
    (b, [], { defs := b.definitions, instances := [], sealed := true, loading := [] })
  else
    let pr := runCallbacks .prov 0 b.providers b.definitions
    let rr := runCallbacks .res 0 b.resolvers pr.1
    let b1 := { b with definitions := rr.1, resolved := true }
    (b1, pr.2 ++ rr.2, { defs := rr.1, instances := [], sealed := true, loading := [] })

/-- Errors raised (as panics) during resolution. -/
inductive DiErr : Type where
  | notFound (key : Key)
  | visibility (key : Key)
  | cycle (origin last : Key)
  | outOfFuel
deriving DecidableEq, Repr

/-- Mutable resolution state shared along a construction chain: the instance
cache of the session (the same itemHash is shared by the sealed session and
the unsealed views handed to factories) and, as instrumentation, the number
of invocations of each factory identity. -/
structure RunSt : Type where
  instances : List (Key × Nat)
  calls : List (Nat × Nat)
deriving DecidableEq, Repr

instance {ε α : Type} [DecidableEq ε] [DecidableEq α] : DecidableEq (Except ε α)
  | .ok x, .ok y =>
    if h : x = y then .isTrue (by rw [h]) else .isFalse (by intro he; cases he; exact h rfl)
  | .ok _, .error _ => .isFalse (by intro h; cases h)
  | .error _, .ok _ => .isFalse (by intro h; cases h)
  | .error e1, .error e2 =>
    if h : e1 = e2 then .isTrue (by rw [h]) else .isFalse (by intro he; cases he; exact h rfl)

/-- Outcome of a resolution step: the produced value or the propagating
panic, the loading stack of the container the caller holds (`c.loading`
after the call - appends made through an unsealed view are visible to every
holder of that view), and the final shared state.  A panic does not roll
back mutations, so the state is returned in the error case too. -/
abbrev RunOut := Except DiErr Nat × List Key × RunSt

/-- The three mutually recursive resolution routines, fused into one
fuel-indexed step function: `tget` is container.Get, `tcon` is
container.construct, `texp` runs a factory body against the unsealed view it
received.  Fuel only bounds recursion depth; every theorem either supplies
enough fuel or assumes a non-fuel outcome. -/
inductive RTask : Type where
  | tget (sealed : Bool) (key : Key)
  | tcon (sealed : Bool) (d : Defn) (key : Key)
  | texp (fid : Nat) (e : FExp)

/-- Resolution interpreter.

`tget sealed key` models container.Get: look the definition up (nil panics
as notFound), reject private definitions on a sealed view, return the cached
instance of a shared definition when present, otherwise construct - storing
the result in the cache only for shared definitions.

`tcon sealed d key` models container.construct: panic with the cycle error
`(loading[0], loading[len-1])` when `key` is already on the loading stack of
the receiving container; otherwise run the factory against the unsealed view
(`u := c.unseal()` - the same container when already unsealed, a fresh one
with an empty loading stack when sealed) after pushing `key` onto `u`'s
stack, pop the top of `u`'s stack when the factory returns normally (the pop
is skipped when the factory panics), and hand back the loading stack the
caller's container ends up with: unchanged for a sealed caller, `u`'s stack
for an unsealed caller (the same object).

`texp fid e` runs a factory body: `lit` and `cnt` return immediately, `get`
re-enters Get on the unsealed view, `add` sequences two bodies. -/
def runStep : Nat → Registry → RTask → List Key → RunSt → RunOut
  | 0, _, _, loading, st => (.error .outOfFuel, loading, st)
  | fuel + 1, reg, .tget sealed key, loading, st =>
    match lookupA reg key with
    | none => (.error (.notFound key), loading, st)
    | some d =>
      if sealed && d.Private then (.error (.visibility key), loading, st)
      else if d.Shared then
        match lookupA st.instances key with
        | some v => (.ok v, loading, st)
        | none =>
          match runStep fuel reg (.tcon sealed d key) loading st with
          | (.ok v, l1, st1) => (.ok v, l1, { st1 with instances := setK st1.instances key v })
          | (.error e, l1, st1) => (.error e, l1, st1)
      else runStep fuel reg (.tcon sealed d key) loading st
  | fuel + 1, reg, .tcon sealed d key, loading, st =>
    if key ∈ loading then
      (.error (.cycle (loading.headD "") (loading.getLastD "")), loading, st)
    else
      let uload := (if sealed then [] else loading) ++ [key]
      let st1 := { st with calls := bump st.calls d.factoryId }
      match runStep fuel reg (.texp d.factoryId d.body) uload st1 with
      | (.ok v, l1, st2) => (.ok v, if sealed then loading else l1.dropLast, st2)
      | (.error e, l1, st2) => (.error e, if sealed then loading else l1, st2)
  | fuel + 1, reg, .texp fid e, loading, st =>
    match e with
    | .lit n => (.ok n, loading, st)
    | .cnt => (.ok (countOf st.calls fid), loading, st)
    | .get k => runStep fuel reg (.tget false k) loading st
    | .add a b =>
      match runStep fuel reg (.texp fid a) loading st with
      | (.ok v1, l1, st1) =>
        match runStep fuel reg (.texp fid b) l1 st1 with
        | (.ok v2, l2, st2) => (.ok (v1 + v2), l2, st2)
        | (.error e2, l2, st2) => (.error e2, l2, st2)
      | (.error e1, l1, st1) => (.error e1, l1, st1)

/-- container.Get on a session whose container carries loading stack
`loading` (always empty for the sealed session handed out by GetContainer). -/
def runGet (fuel : Nat) (reg : Registry) (sealed : Bool) (loading : List Key)
    (st : RunSt) (key : Key) : RunOut :=
  runStep fuel reg (.tget sealed key) loading st

/-- container.construct. -/
def runConstruct (fuel : Nat) (reg : Registry) (sealed : Bool) (loading : List Key)
    (st : RunSt) (d : Defn) (key : Key) : RunOut :=
  runStep fuel reg (.tcon sealed d key) loading st

/-- Run one factory body. -/
def runFExp (fuel : Nat) (reg : Registry) (fid : Nat) (e : FExp) (loading : List Key)
    (st : RunSt) : RunOut :=
  runStep fuel reg (.texp fid e) loading st

/-- The sweep loop of container.MustBuild: range over the definitions map in
iteration order `enum`, skip private definitions, Get every other key on the
sealed session; the first panic propagates. -/
def mustBuildSweep (fuel : Nat) (reg : Registry) (st : RunSt) :
    List (Key × Defn) → Except DiErr RunSt
  | [] => .ok st
  | (k, d) :: rest =>
    if d.Private then mustBuildSweep fuel reg st rest
    else
      match runGet fuel reg true [] st k with
      | (.ok _, _, st1) => mustBuildSweep fuel reg st1 rest
      | (.error e, _, _) => .error e

/-- container.MustBuild of the newest container.go revision: sweep every
public definition, then, when `dry` is true, execute
`c = &container{..., instances: newItemHash(), ...}` - an assignment to the
local receiver copy, which leaves the caller's session untouched.  The model
reproduces that faithfully: the returned state is the swept state whether or
not `dry` is set. -/
def mustBuild (fuel : Nat) (reg : Registry) (enum : List (Key × Defn)) (st : RunSt)
    (dry : Bool) : Except DiErr RunSt :=
  match mustBuildSweep fuel reg st enum with
  | .error e => .error e
  | .ok st1 =>
    match dry with
    | true => .ok st1
    | false => .ok st1

/-! Association-list facts. -/

theorem lookupA_setK_self {β : Type} (l : List (Key × β)) (k : Key) (v : β) :
    lookupA (setK l k v) k = some v := by
  induction l with
  | nil => simp [setK, lookupA]
  | cons hd tl ih =>
    obtain ⟨a, b⟩ := hd
    by_cases h : a = k
    · simp [setK, lookupA, h]
    · simp [setK, lookupA, h, ih]

theorem lookupA_setK_ne {β : Type} (l : List (Key × β)) (k k' : Key) (v : β)
    (h : k' ≠ k) : lookupA (setK l k v) k' = lookupA l k' := by
  have h2 : ¬(k = k') := fun hh => h hh.symm
  induction l with
  | nil => simp [setK, lookupA, h2]
  | cons hd tl ih =>
    obtain ⟨a, b⟩ := hd
    by_cases ha : a = k
    · subst ha
      simp [setK, lookupA, h2]
    · simp [setK, lookupA, ha, ih]

theorem lookupN_setN_self (l : List (Nat × Nat)) (k v : Nat) :
    lookupN (setN l k v) k = some v := by
  induction l with
  | nil => simp [setN, lookupN]
  | cons hd tl ih =>
    obtain ⟨a, b⟩ := hd
    by_cases h : a = k
    · simp [setN, lookupN, h]
    · simp [setN, lookupN, h, ih]

theorem lookupN_setN_ne (l : List (Nat × Nat)) (k k' v : Nat) (h : k' ≠ k) :
    lookupN (setN l k v) k' = lookupN l k' := by
  have h2 : ¬(k = k') := fun hh => h hh.symm
  induction l with
  | nil => simp [setN, lookupN, h2]
  | cons hd tl ih =>
    obtain ⟨a, b⟩ := hd
    by_cases ha : a = k
    · subst ha
      simp [setN, lookupN, h2]
    · simp [setN, lookupN, ha, ih]

theorem countOf_bump_self (c : List (Nat × Nat)) (fid : Nat) :
    countOf (bump c fid) fid = countOf c fid + 1 := by
  simp [bump, countOf, lookupN_setN_self]

theorem countOf_bump_le (c : List (Nat × Nat)) (g fid : Nat) :
    countOf c fid ≤ countOf (bump c g) fid := by
  by_cases h : fid = g
  · subst h
    simp [countOf_bump_self]
  · simp [bump, countOf, lookupN_setN_ne _ _ _ _ h]

/-! Interpreter invariants. -/

/-- Factory invocation counts never decrease across any resolution step
(success or panic). -/
theorem callsMono (fuel : Nat) : ∀ (reg : Registry) (t : RTask) (loading : List Key)
    (st : RunSt) (fid : Nat),
    countOf st.calls fid ≤ countOf (runStep fuel reg t loading st).2.2.calls fid := by
  induction fuel with
  | zero => intro reg t loading st fid; simp [runStep]
  | succ f ih =>
    intro reg t loading st fid
    cases t with
    | tget sealed key =>
      simp only [runStep]
      cases hl : lookupA reg key with
      | none => simp
      | some d =>
        by_cases hp : (sealed && d.Private) = true
        · simp [hp]
        · simp only [hp, if_false, Bool.false_eq_true]
          by_cases hs : d.Shared = true
          · simp only [hs, if_true]
            cases hc : lookupA st.instances key with
            | some v => simp
            | none =>
              rcases hr : runStep f reg (.tcon sealed d key) loading st with ⟨r, l1, st1⟩
              have := ih reg (.tcon sealed d key) loading st fid
              rw [hr] at this
              cases r with
              | ok v => simpa using this
              | error e => simpa using this
          · simp only [hs, if_false, Bool.false_eq_true]
            exact ih reg (.tcon sealed d key) loading st fid
    | tcon sealed d key =>
      simp only [runStep]
      by_cases hm : key ∈ loading
      · simp [hm]
      · simp only [hm, if_false]
        rcases hr : runStep f reg (.texp d.factoryId d.body)
            ((if sealed then [] else loading) ++ [key])
            { st with calls := bump st.calls d.factoryId } with ⟨r, l1, st2⟩
        have h2 := ih reg (.texp d.factoryId d.body)
            ((if sealed then [] else loading) ++ [key])
            { st with calls := bump st.calls d.factoryId } fid
        rw [hr] at h2
        have h1 : countOf st.calls fid ≤ countOf (bump st.calls d.factoryId) fid :=
          countOf_bump_le _ _ _
        cases r with
        | ok v => simpa using le_trans h1 h2
        | error e => simpa using le_trans h1 h2
    | texp fid2 e =>
      cases e with
      | lit n => simp [runStep]
      | cnt => simp [runStep]
      | get k =>
        simp only [runStep]
        exact ih reg (.tget false k) loading st fid
      | add a b =>
        simp only [runStep]
        rcases hr : runStep f reg (.texp fid2 a) loading st with ⟨r1, l1, st1⟩
        have ha := ih reg (.texp fid2 a) loading st fid
        rw [hr] at ha
        cases r1 with
        | ok v1 =>
          dsimp only
          rcases hr2 : runStep f reg (.texp fid2 b) l1 st1 with ⟨r2, l2, st2⟩
          have hb := ih reg (.texp fid2 b) l1 st1 fid
          rw [hr2] at hb
          cases r2 with
          | ok v2 => simpa using le_trans ha hb
          | error e2 => simpa using le_trans ha hb
        | error e1 => simpa using ha

/-- The instance-cache entry of a non-shared definition is never written:
any resolution step (success or panic) leaves the cache unchanged at every
key whose definition is not shared. -/
theorem nonSharedCachePres (fuel : Nat) : ∀ (reg : Registry) (t : RTask)
    (loading : List Key) (st : RunSt) (k : Key) (d : Defn),
    lookupA reg k = some d → d.Shared = false →
    lookupA (runStep fuel reg t loading st).2.2.instances k = lookupA st.instances k := by
  induction fuel with
  | zero => intro reg t loading st k d hk hs; simp [runStep]
  | succ f ih =>
    intro reg t loading st k d hk hs
    cases t with
    | tget sealed key =>
      simp only [runStep]
      cases hl : lookupA reg key with
      | none => simp
      | some d2 =>
        by_cases hp : (sealed && d2.Private) = true
        · simp [hp]
        · simp only [hp, if_false, Bool.false_eq_true]
          by_cases hsh : d2.Shared = true
          · simp only [hsh, if_true]
            cases hc : lookupA st.instances key with
            | some v => simp
            | none =>
              rcases hr : runStep f reg (.tcon sealed d2 key) loading st with ⟨r, l1, st1⟩
              have hpres := ih reg (.tcon sealed d2 key) loading st k d hk hs
              rw [hr] at hpres
              cases r with
              | ok v =>
                have hne : k ≠ key := by
                  intro he
                  subst he
                  rw [hk] at hl
                  cases hl
                  rw [hsh] at hs
                  cases hs
                simpa [lookupA_setK_ne _ _ _ _ hne] using hpres
              | error e => simpa using hpres
          · simp only [hsh, if_false, Bool.false_eq_true]
            exact ih reg (.tcon sealed d2 key) loading st k d hk hs
    | tcon sealed d2 key =>
      simp only [runStep]
      by_cases hm : key ∈ loading
      · simp [hm]
      · simp only [hm, if_false]
        rcases hr : runStep f reg (.texp d2.factoryId d2.body)
            ((if sealed then [] else loading) ++ [key])
            { st with calls := bump st.calls d2.factoryId } with ⟨r, l1, st2⟩
        have hpres := ih reg (.texp d2.factoryId d2.body)
            ((if sealed then [] else loading) ++ [key])
            { st with calls := bump st.calls d2.factoryId } k d hk hs
        rw [hr] at hpres
        cases r with
        | ok v => simpa using hpres
        | error e => simpa using hpres
    | texp fid2 e =>
      cases e with
      | lit n => simp [runStep]
      | cnt => simp [runStep]
      | get k2 =>
        simp only [runStep]
        exact ih reg (.tget false k2) loading st k d hk hs
      | add a b =>
        simp only [runStep]
        rcases hr : runStep f reg (.texp fid2 a) loading st with ⟨r1, l1, st1⟩
        have hA := ih reg (.texp fid2 a) loading st k d hk hs
        rw [hr] at hA
        cases r1 with
        | ok v1 =>
          dsimp only
          rcases hr2 : runStep f reg (.texp fid2 b) l1 st1 with ⟨r2, l2, st2⟩
          have hB := ih reg (.texp fid2 b) l1 st1 k d hk hs
          rw [hr2] at hB
          cases r2 with
          | ok v2 => simp at hA hB; simp [hB, hA]
          | error e2 => simp at hA hB; simp [hB, hA]
        | error e1 => simpa using hA

/-- A successfully completed step leaves the caller's loading stack exactly
as it found it: construct pops the key it pushed, and factory bodies leave
the stack balanced. -/
theorem loadingPresOk (fuel : Nat) : ∀ (reg : Registry) (t : RTask) (loading : List Key)
    (st : RunSt) (v : Nat) (l' : List Key) (st' : RunSt),
    runStep fuel reg t loading st = (.ok v, l', st') → l' = loading := by
  induction fuel with
  | zero => intro reg t loading st v l' st' h; simp [runStep] at h
  | succ f ih =>
    intro reg t loading st v l' st' h
    cases t with
    | tget sealed key =>
      simp only [runStep] at h
      cases hl : lookupA reg key with
      | none => rw [hl] at h; simp at h
      | some d =>
        rw [hl] at h
        by_cases hp : (sealed && d.Private) = true
        · simp [hp] at h
        · simp only [hp, if_false, Bool.false_eq_true] at h
          by_cases hsh : d.Shared = true
          · simp only [hsh, if_true] at h
            cases hc : lookupA st.instances key with
            | some v2 =>
              rw [hc] at h
              simp at h
              exact h.2.1.symm
            | none =>
              rw [hc] at h
              rcases hr : runStep f reg (.tcon sealed d key) loading st with ⟨r, l1, st1⟩
              rw [hr] at h
              cases r with
              | ok v2 =>
                simp at h
                obtain ⟨-, hl', -⟩ := h
                subst hl'
                exact ih reg (.tcon sealed d key) loading st v2 l1 st1 hr
              | error e => simp at h
          · simp only [hsh, if_false, Bool.false_eq_true] at h
            exact ih reg (.tcon sealed d key) loading st v l' st' h
    | tcon sealed d key =>
      simp only [runStep] at h
      by_cases hm : key ∈ loading
      · simp [hm] at h
      · simp only [hm, if_false] at h
        rcases hr : runStep f reg (.texp d.factoryId d.body)
            ((if sealed then [] else loading) ++ [key])
            { st with calls := bump st.calls d.factoryId } with ⟨r, l1, st2⟩
        rw [hr] at h
        cases r with
        | ok v2 =>
          have hbal : l1 = (if sealed then [] else loading) ++ [key] :=
            ih reg (.texp d.factoryId d.body) _ _ v2 l1 st2 hr
          simp at h
          obtain ⟨-, hl', -⟩ := h
          subst hl'
          subst hbal
          cases sealed with
          | true => simp
          | false => simp
        | error e => simp at h
    | texp fid2 e =>
      cases e with
      | lit n =>
        simp [runStep] at h
        exact h.2.1.symm
      | cnt =>
        simp [runStep] at h
        exact h.2.1.symm
      | get k2 =>
        simp only [runStep] at h
        exact ih reg (.tget false k2) loading st v l' st' h
      | add a b =>
        simp only [runStep] at h
        rcases hr : runStep f reg (.texp fid2 a) loading st with ⟨r1, l1, st1⟩
        rw [hr] at h
        cases r1 with
        | ok v1 =>
          dsimp only at h
          rcases hr2 : runStep f reg (.texp fid2 b) l1 st1 with ⟨r2, l2, st2⟩
          rw [hr2] at h
          cases r2 with
          | ok v2 =>
            simp at h
            obtain ⟨-, hl', -⟩ := h
            subst hl'
            have h1 : l1 = loading := ih reg (.texp fid2 a) loading st v1 l1 st1 hr
            have h2 : l2 = l1 := ih reg (.texp fid2 b) l1 st1 v2 l2 st2 hr2
            rw [h2, h1]
          | error e2 => simp at h
        | error e1 => simp at h

/-- construct never touches the loading stack of a sealed caller, whatever
the outcome: the chain runs on the fresh unsealed view. -/
theorem sealedConstructLoading (fuel : Nat) (reg : Registry) (d : Defn) (key : Key)
    (loading : List Key) (st : RunSt) :
    (runStep fuel reg (.tcon true d key) loading st).2.1 = loading := by
  cases fuel with
  | zero => simp [runStep]
  | succ f =>
    simp only [runStep]
    by_cases hm : key ∈ loading
    · simp [hm]
    · simp only [hm, if_false]
      rcases hr : runStep f reg (.texp d.factoryId d.body) ([] ++ [key])
          { st with calls := bump st.calls d.factoryId } with ⟨r, l1, st2⟩
      simp only [if_true]
      rw [hr]
      cases r with
      | ok v => simp
      | error e => simp

/-- Get on a sealed container never changes that container's loading stack,
whatever the outcome (the stack handed to later calls is the one the session
was created with). -/
theorem sealedGetLoading (fuel : Nat) (reg : Registry) (key : Key)
    (loading : List Key) (st : RunSt) :
    (runStep fuel reg (.tget true key) loading st).2.1 = loading := by
  cases fuel with
  | zero => simp [runStep]
  | succ f =>
    simp only [runStep]
    cases hl : lookupA reg key with
    | none => simp
    | some d =>
      by_cases hp : d.Private = true
      · simp [hp]
      · simp only [hp, Bool.and_false, Bool.false_eq_true, if_false]
        by_cases hsh : d.Shared = true
        · simp only [hsh, if_true]
          cases hc : lookupA st.instances key with
          | some v => simp
          | none =>
            rcases hr : runStep f reg (.tcon true d key) loading st with ⟨r, l1, st1⟩
            have := sealedConstructLoading f reg d key loading st
            rw [hr] at this
            cases r with
            | ok v => simpa using this
            | error e => simpa using this
        · simp only [hsh, if_false, Bool.false_eq_true]
          have := sealedConstructLoading f reg d key loading st
          simpa using this

/-- construct always invokes the factory of the definition it was given
(when the cycle check passes): the invocation count of that factory identity
grows by at least one, whatever the body then does. -/
theorem constructBumps (fuel : Nat) (reg : Registry) (sealed : Bool) (d : Defn)
    (key : Key) (loading : List Key) (st : RunSt) (h : key ∉ loading) :
    countOf st.calls d.factoryId + 1 ≤
      countOf (runStep (fuel + 1) reg (.tcon sealed d key) loading st).2.2.calls d.factoryId := by
  simp only [runStep, h, if_false]
  rcases hr : runStep fuel reg (.texp d.factoryId d.body)
      ((if sealed then [] else loading) ++ [key])
      { st with calls := bump st.calls d.factoryId } with ⟨r, l1, st2⟩
  have hmono := callsMono fuel reg (.texp d.factoryId d.body)
      ((if sealed then [] else loading) ++ [key])
      { st with calls := bump st.calls d.factoryId } d.factoryId
  rw [hr] at hmono
  have hb : countOf (bump st.calls d.factoryId) d.factoryId = countOf st.calls d.factoryId + 1 :=
    countOf_bump_self _ _
  cases r with
  | ok v =>
    simp only at hmono
    rw [hb] at hmono
    simpa using hmono
  | error e =>
    simp only at hmono
    rw [hb] at hmono
    simpa using hmono

/-- C1: on one session, a successful Get of a key whose definition is tagged
shared caches the produced value under that key, and every subsequent Get of
the key returns that same cached value while leaving the session state
completely unchanged (in particular no factory runs again); a Get of a key
whose definition is not shared invokes the definition's factory again on
every call (its invocation count strictly grows) and leaves the instance
cache unchanged at that key - non-shared results are never stored. -/
theorem C1_shared_cached_nonshared_rebuilt (reg : Registry) (key : Key) (d : Defn)
    (st : RunSt) (fuel : Nat) (v : Nat) (l' : List Key) (st' : RunSt)
    (hd : lookupA reg key = some d)
    (hrun : runGet fuel reg true [] st key = (.ok v, l', st')) :
    (d.Shared = true →
      lookupA st'.instances key = some v ∧
      ∀ g : Nat, runGet (g + 1) reg true [] st' key = (.ok v, [], st')) ∧
    (d.Shared = false →
      countOf st.calls d.factoryId + 1 ≤ countOf st'.calls d.factoryId ∧
      lookupA st'.instances key = lookupA st.instances key) := by
  have hcache0 := nonSharedCachePres fuel reg (.tget true key) [] st key d hd
  rw [show runStep fuel reg (.tget true key) [] st = (.ok v, l', st') from hrun] at hcache0
  cases fuel with
  | zero => simp [runGet, runStep] at hrun
  | succ f =>
    have hpriv : d.Private = false := by
      by_contra hp
      have hp' : d.Private = true := by revert hp; cases d.Private <;> simp
      simp [runGet, runStep, hd, hp'] at hrun
    constructor
    · intro hsh
      simp only [runGet, runStep, hd, hpriv, hsh, Bool.and_false, Bool.false_eq_true,
        if_false, if_true] at hrun
      have hinst : lookupA st'.instances key = some v := by
        cases hc : lookupA st.instances key with
        | some v0 =>
          rw [hc] at hrun
          simp only [Prod.mk.injEq, Except.ok.injEq] at hrun
          obtain ⟨h1, -, h3⟩ := hrun
          rw [← h3, ← h1]
          exact hc
        | none =>
          rw [hc] at hrun
          rcases hr : runStep f reg (.tcon true d key) [] st with ⟨r, l1, st1⟩
          rw [hr] at hrun
          cases r with
          | ok v1 =>
            simp only [Prod.mk.injEq, Except.ok.injEq] at hrun
            obtain ⟨h1, -, h3⟩ := hrun
            rw [← h3, ← h1]
            exact lookupA_setK_self _ _ _
          | error e => simp at hrun
      refine ⟨hinst, fun g => ?_⟩
      simp [runGet, runStep, hd, hpriv, hsh, hinst]
    · intro hsh
      refine ⟨?_, by simpa [hsh] using hcache0⟩
      simp only [runGet, runStep, hd, hpriv, hsh, Bool.and_false, Bool.false_eq_true,
        if_false] at hrun
      cases f with
      | zero => simp [runStep] at hrun
      | succ f2 =>
        have hb := constructBumps f2 reg true d key [] st (by simp)
        rw [hrun] at hb
        simpa using hb

/-- C1 witness: a registry with a shared counting factory under "a" and a
non-shared counting factory under "b"; the first Get of "a" caches 1 and
repeats unchanged, while a Get of "b" after that bumps b's factory count and
stores nothing under "b". -/
theorem C1_witness :
    (lookupA (⟨[("a", 1)], [(1, 1)]⟩ : RunSt).instances "a" = some 1 ∧
      ∀ g : Nat,
        runGet (g + 1)
          [("a", Defn.mk 1 .cnt [("shared", ""), ("factory", "")] 0 true false "factory" none),
           ("b", Defn.mk 2 .cnt [("factory", "")] 0 false false "factory" none)]
          true [] ⟨[("a", 1)], [(1, 1)]⟩ "a" = (.ok 1, [], ⟨[("a", 1)], [(1, 1)]⟩)) ∧
    (countOf ([(1, 1)] : List (Nat × Nat)) 2 + 1 ≤
        countOf ([(1, 1), (2, 1)] : List (Nat × Nat)) 2 ∧
      lookupA ([("a", 1)] : List (Key × Nat)) "b" = lookupA ([("a", 1)] : List (Key × Nat)) "b") := by
  refine ⟨?_, ?_⟩
  · exact
      (C1_shared_cached_nonshared_rebuilt
        [("a", Defn.mk 1 .cnt [("shared", ""), ("factory", "")] 0 true false "factory" none),
         ("b", Defn.mk 2 .cnt [("factory", "")] 0 false false "factory" none)]
        "a" (Defn.mk 1 .cnt [("shared", ""), ("factory", "")] 0 true false "factory" none)
        ⟨[], []⟩ 5 1 [] ⟨[("a", 1)], [(1, 1)]⟩ rfl rfl).1 rfl
  · exact
      (C1_shared_cached_nonshared_rebuilt
        [("a", Defn.mk 1 .cnt [("shared", ""), ("factory", "")] 0 true false "factory" none),
         ("b", Defn.mk 2 .cnt [("factory", "")] 0 false false "factory" none)]
        "b" (Defn.mk 2 .cnt [("factory", "")] 0 false false "factory" none)
        ⟨[("a", 1)], [(1, 1)]⟩ 5 1 [] ⟨[("a", 1)], [(1, 1), (2, 1)]⟩ rfl rfl).2 rfl

/-- C2: on a sealed session, Get fails with the visibility error naming the
requested key whenever the definition stored under that key - for an alias
key the alias's own record with its own private flag - is private; a
non-private definition with the same stored factory body resolves normally
on the sealed session (so a public alias of a private target succeeds); and
a private definition is retrievable from inside another definition's factory
during a construction, because the factory runs against an unsealed view of
the same session. -/
theorem C2_private_visibility :
    (∀ (fuel : Nat) (reg : Registry) (loading : List Key) (st : RunSt) (key : Key) (d : Defn),
        lookupA reg key = some d → d.Private = true →
        runGet (fuel + 1) reg true loading st key = (.error (.visibility key), loading, st)) ∧
    (∀ (fuel : Nat) (reg : Registry) (sealed : Bool) (loading : List Key) (st : RunSt)
        (key : Key) (d : Defn) (n : Nat),
        lookupA reg key = some d → d.body = .lit n → d.Shared = false →
        sealed = false ∨ d.Private = false → key ∉ loading →
        runGet (fuel + 3) reg sealed loading st key =
          (.ok n, loading, { st with calls := bump st.calls d.factoryId })) ∧
    (∀ (fuel : Nat) (reg : Registry) (st : RunSt) (k p : Key) (kd pd : Defn) (n : Nat),
        lookupA reg k = some kd → kd.Private = false → kd.Shared = false →
        kd.body = .get p → lookupA reg p = some pd → pd.Private = true →
        pd.Shared = false → pd.body = .lit n → k ≠ p →
        runGet (fuel + 6) reg true [] st k =
          (.ok n, [],
            { st with calls := bump (bump st.calls kd.factoryId) pd.factoryId })) := by
  refine ⟨?_, ?_, ?_⟩
  · intro fuel reg loading st key d hd hp
    simp [runGet, runStep, hd, hp]
  · intro fuel reg sealed loading st key d n hd hb hs hv hm
    have hvis : (sealed && d.Private) = false := by
      rcases hv with h | h
      · simp [h]
      · simp [h]
    cases sealed with
    | true =>
      have hp2 : d.Private = false := by simpa using hvis
      simp [runGet, runStep, hd, hb, hs, hm, hp2]
    | false =>
      simp [runGet, runStep, hd, hb, hs, hm]
  · intro fuel reg st k p kd pd n hk hkp hks hkb hp hpp hps hpb hne
    have hne2 : ¬(p = k) := fun he => hne he.symm
    have hpm : ¬(p ∈ [k]) := by
      simp only [List.mem_singleton]
      exact hne2
    simp [runGet, runStep, hk, hkp, hks, hkb, hp, hpp, hps, hpb, hpm, hne2]

/-- Example registry for exercising visibility: a private service, a public
alias of it (copied factory, own tags), a public service with a private
alias of it, and a public consumer whose factory Gets the private service. -/
def regC2 : Registry :=
  [("priv", Defn.mk 1 (.lit 9) [("private", ""), ("factory", "")] 0 false true "factory" none),
   ("pub_alias", Defn.mk 1 (.lit 9) [("alias", "")] 0 false false "alias"
     (some (Defn.mk 1 (.lit 9) [("private", ""), ("factory", "")] 0 false true "factory" none))),
   ("pubT", Defn.mk 2 (.lit 4) [("factory", "")] 0 false false "factory" none),
   ("priv_alias", Defn.mk 2 (.lit 4) [("private", ""), ("alias", "")] 0 false true "alias"
     (some (Defn.mk 2 (.lit 4) [("factory", "")] 0 false false "factory" none))),
   ("consumer", Defn.mk 3 (.get "priv") [("factory", "")] 0 false false "factory" none)]

/-- C2 witness: on the sealed session, the private service and the private
alias of a public target are rejected with visibility errors naming the
requested key, the public alias of the private target resolves, and the
consumer's factory retrieves the private service through its unsealed view. -/
theorem C2_witness :
    runGet 1 regC2 true [] ⟨[], []⟩ "priv" = (.error (.visibility "priv"), [], ⟨[], []⟩) ∧
    runGet 1 regC2 true [] ⟨[], []⟩ "priv_alias" =
      (.error (.visibility "priv_alias"), [], ⟨[], []⟩) ∧
    runGet 3 regC2 true [] ⟨[], []⟩ "pub_alias" = (.ok 9, [], ⟨[], [(1, 1)]⟩) ∧
    runGet 6 regC2 true [] ⟨[], []⟩ "consumer" = (.ok 9, [], ⟨[], [(3, 1), (1, 1)]⟩) := by
  refine ⟨?_, ?_, ?_, ?_⟩
  · exact C2_private_visibility.1 0 regC2 [] ⟨[], []⟩ "priv"
      (Defn.mk 1 (.lit 9) [("private", ""), ("factory", "")] 0 false true "factory" none) rfl rfl
  · exact C2_private_visibility.1 0 regC2 [] ⟨[], []⟩ "priv_alias"
      (Defn.mk 2 (.lit 4) [("private", ""), ("alias", "")] 0 false true "alias"
        (some (Defn.mk 2 (.lit 4) [("factory", "")] 0 false false "factory" none))) rfl rfl
  · exact C2_private_visibility.2.1 0 regC2 true [] ⟨[], []⟩ "pub_alias"
      (Defn.mk 1 (.lit 9) [("alias", "")] 0 false false "alias"
        (some (Defn.mk 1 (.lit 9) [("private", ""), ("factory", "")] 0 false true "factory" none)))
      9 rfl rfl rfl (Or.inr rfl) (by simp)
  · exact C2_private_visibility.2.2 0 regC2 ⟨[], []⟩ "consumer" "priv"
      (Defn.mk 3 (.get "priv") [("factory", "")] 0 false false "factory" none)
      (Defn.mk 1 (.lit 9) [("private", ""), ("factory", "")] 0 false true "factory" none)
      9 rfl rfl rfl rfl rfl rfl rfl rfl (by decide)

/-- C7: construction leaves the loading stack balanced: a Get that returns
normally hands back exactly the loading stack it was called with (every key
construct pushed has been popped again), a Get on the sealed session leaves
the session's stack untouched even when the construction fails, and in
consequence a factory that resolves the same non-shared dependency twice in
a row (the second, independent construction starting after the first one
finished) succeeds instead of reporting a spurious circular reference. -/
theorem C7_loading_stack_restored :
    (∀ (fuel : Nat) (reg : Registry) (sealed : Bool) (loading : List Key) (st : RunSt)
        (key : Key) (v : Nat) (l' : List Key) (st' : RunSt),
        runGet fuel reg sealed loading st key = (.ok v, l', st') → l' = loading) ∧
    (∀ (fuel : Nat) (reg : Registry) (loading : List Key) (st : RunSt) (key : Key),
        (runGet fuel reg true loading st key).2.1 = loading) ∧
    (∀ (fuel : Nat) (reg : Registry) (st : RunSt) (a dk : Key) (ad dd : Defn) (m : Nat),
        lookupA reg a = some ad → ad.Private = false → ad.Shared = false →
        ad.body = .add (.get dk) (.get dk) →
        lookupA reg dk = some dd → dd.Private = false → dd.Shared = false →
        dd.body = .lit m → a ≠ dk →
        runGet (fuel + 9) reg true [] st a =
          (.ok (m + m), [],
            { st with
              calls := bump (bump (bump st.calls ad.factoryId) dd.factoryId) dd.factoryId })) := by
  refine ⟨?_, ?_, ?_⟩
  · intro fuel reg sealed loading st key v l' st' h
    exact loadingPresOk fuel reg (.tget sealed key) loading st v l' st' h
  · intro fuel reg loading st key
    exact sealedGetLoading fuel reg key loading st
  · intro fuel reg st a dk ad dd m ha hap has hab hd hdp hds hdb hne
    have hne2 : ¬(dk = a) := fun he => hne he.symm
    have hm1 : ¬(dk ∈ [a]) := by
      simp only [List.mem_singleton]
      exact hne2
    simp [runGet, runStep, ha, hap, has, hab, hd, hdp, hds, hdb, hm1, hne2]

/-- C7 witness: a successful nested construction returns the loading stack
it started from, a failing sealed Get leaves the sealed session's stack
empty, and the diamond-shaped dependency (one factory resolving the same
non-shared dependency twice) resolves without a spurious cycle error. -/
theorem C7_witness :
    (runGet 9
        [("top", Defn.mk 1 (.add (.get "dep") (.get "dep")) [] 0 false false "factory" none),
         ("dep", Defn.mk 2 (.lit 5) [] 0 false false "factory" none)]
        false ["outer"] ⟨[], []⟩ "dep").2.1 = ["outer"] ∧
    (runGet 20
        [("s1", Defn.mk 1 (.get "s1") [] 0 false false "factory" none)]
        true [] ⟨[], []⟩ "s1").2.1 = [] ∧
    runGet 9
        [("top", Defn.mk 1 (.add (.get "dep") (.get "dep")) [] 0 false false "factory" none),
         ("dep", Defn.mk 2 (.lit 5) [] 0 false false "factory" none)]
        true [] ⟨[], []⟩ "top" = (.ok 10, [], ⟨[], [(1, 1), (2, 2)]⟩) := by
  refine ⟨?_, ?_, ?_⟩
  · have hr : runGet 9
        [("top", Defn.mk 1 (.add (.get "dep") (.get "dep")) [] 0 false false "factory" none),
         ("dep", Defn.mk 2 (.lit 5) [] 0 false false "factory" none)]
        false ["outer"] ⟨[], []⟩ "dep" = (.ok 5, ["outer"], ⟨[], [(2, 1)]⟩) := by decide
    have h := C7_loading_stack_restored.1 9
      [("top", Defn.mk 1 (.add (.get "dep") (.get "dep")) [] 0 false false "factory" none),
       ("dep", Defn.mk 2 (.lit 5) [] 0 false false "factory" none)]
      false ["outer"] ⟨[], []⟩ "dep" 5 ["outer"] ⟨[], [(2, 1)]⟩ hr
    exact (congrArg (fun o => o.2.1) hr).trans h
  · exact C7_loading_stack_restored.2.1 20
      [("s1", Defn.mk 1 (.get "s1") [] 0 false false "factory" none)] [] ⟨[], []⟩ "s1"
  · exact C7_loading_stack_restored.2.2 0
      [("top", Defn.mk 1 (.add (.get "dep") (.get "dep")) [] 0 false false "factory" none),
       ("dep", Defn.mk 2 (.lit 5) [] 0 false false "factory" none)]
      ⟨[], []⟩ "top" "dep"
      (Defn.mk 1 (.add (.get "dep") (.get "dep")) [] 0 false false "factory" none)
      (Defn.mk 2 (.lit 5) [] 0 false false "factory" none)
      5 rfl rfl rfl rfl rfl rfl rfl rfl (by decide)

/-- A chain link: a plain (non-shared, public) factory definition whose body
resolves the next key of the chain. -/
def chainDef (next : Key) : Defn :=
  .mk 0 (.get next) [] 0 false false "factory" none

/-- The registry of a circular chain over the listed keys: every key's
factory Gets the next listed key, and the last key's factory Gets `first`. -/
def chainDefs (first : Key) : List Key → Registry
  | [] => []
  | [k] => [(k, chainDef first)]
  | k :: k2 :: rest => (k, chainDef k2) :: chainDefs first (k2 :: rest)

theorem getLastD_append_single (l : List Key) (a d : Key) :
    (l ++ [a]).getLastD d = a := by
  induction l generalizing d with
  | nil => rfl
  | cons h t ih => simp only [List.cons_append, List.getLastD_cons, ih]

theorem nodup_mid_not_mem_left {pre post : List Key} {k : Key}
    (h : (pre ++ k :: post).Nodup) : k ∉ pre := by
  intro hm
  exact (List.nodup_append.mp h).2.2 hm (List.mem_cons_self _ _)

/-- In the chain registry, a key occurring in the key list resolves to the
link pointing at its successor (or at `first` for the final key). -/
theorem chain_lookup (first : Key) : ∀ (pre : List Key) (k : Key) (post : List Key),
    (pre ++ k :: post).Nodup →
    lookupA (chainDefs first (pre ++ k :: post)) k = some (chainDef (post.headD first)) := by
  intro pre
  induction pre with
  | nil =>
    intro k post hnd
    cases post with
    | nil => simp [chainDefs, lookupA]
    | cons k2 rest => simp [chainDefs, lookupA]
  | cons p pre2 ih =>
    intro k post hnd
    have hne : ¬(p = k) := by
      simp only [List.cons_append, List.nodup_cons] at hnd
      intro he
      exact hnd.1 (by rw [he]; exact List.mem_append_right _ (List.mem_cons_self _ _))
    have hnd2 : (pre2 ++ k :: post).Nodup := by
      simp only [List.cons_append, List.nodup_cons] at hnd
      exact hnd.2
    obtain ⟨h, t, hht⟩ : ∃ h t, pre2 ++ k :: post = h :: t := by
      cases hc : pre2 ++ k :: post with
      | nil => exact absurd hc (by simp)
      | cons h t => exact ⟨h, t, rfl⟩
    rw [List.cons_append, hht]
    rw [show chainDefs first (p :: h :: t) = (p, chainDef h) :: chainDefs first (h :: t) from rfl]
    simp only [lookupA, hne, if_false]
    rw [← hht]
    exact ih k post hnd2

/-- Running the chain from its position `pre.length` (the keys of `pre` are
already on the loading stack) re-enters the chain's first key and panics
with the cycle error naming the first key and the chain's final key. -/
theorem chainCycle (first : Key) : ∀ (post pre : List Key) (k : Key) (fuel : Nat) (st : RunSt),
    (pre ++ k :: post).Nodup →
    first = (pre ++ k :: post).headD "" →
    3 * post.length + 5 ≤ fuel →
    (runGet fuel (chainDefs first (pre ++ k :: post)) false pre st k).1 =
      .error (.cycle first ((pre ++ k :: post).getLastD "")) := by
  intro post
  induction post with
  | nil =>
    intro pre k fuel st hnd hfirst hf
    obtain ⟨g, hg⟩ := Nat.exists_eq_add_of_le hf
    rw [Nat.add_comm] at hg
    subst hg
    have hknp : k ∉ pre := nodup_mid_not_mem_left hnd
    have hlk : lookupA (chainDefs first (pre ++ [k])) k = some (chainDef first) := by
      simpa using chain_lookup first pre k [] hnd
    obtain ⟨f0, tail, hfull⟩ : ∃ f0 tail, pre ++ [k] = f0 :: tail := by
      cases hc : pre ++ [k] with
      | nil => exact absurd hc (by simp)
      | cons f0 tail => exact ⟨f0, tail, rfl⟩
    have hf0 : first = f0 := by
      rw [hfirst, hfull]
      rfl
    have hlf : lookupA (chainDefs first (pre ++ [k])) f0 = some (chainDef (tail.headD first)) := by
      have := chain_lookup first [] f0 tail (by rw [← hfull]; simpa using hnd)
      simpa [hfull] using this
    have hmem : f0 ∈ pre ++ [k] := by
      rw [hfull]
      exact List.mem_cons_self _ _
    have hhead : (pre ++ [k]).headD "" = f0 := by
      rw [hfull]
      rfl
    have hlast : (pre ++ [k]).getLastD "" = k := getLastD_append_single _ _ _
    subst hf0
    simp [runGet, runStep, hlk, hknp, chainDef, hlf, hmem, hlast, Defn.Private,
      Defn.Shared, Defn.body, Defn.factoryId]
    simpa using hhead
  | cons k2 post2 ih =>
    intro pre k fuel st hnd hfirst hf
    obtain ⟨g, hg⟩ := Nat.exists_eq_add_of_le (show 3 ≤ fuel by omega)
    rw [Nat.add_comm] at hg
    subst hg
    have hknp : k ∉ pre := nodup_mid_not_mem_left hnd
    have hlk : lookupA (chainDefs first (pre ++ k :: k2 :: post2)) k = some (chainDef k2) := by
      simpa using chain_lookup first pre k (k2 :: post2) hnd
    have hassoc : (pre ++ [k]) ++ k2 :: post2 = pre ++ k :: k2 :: post2 := by
      simp
    have hih := ih (pre ++ [k]) k2 g { st with calls := bump st.calls 0 }
      (by rw [hassoc]; exact hnd) (by rw [hassoc]; exact hfirst) (by simp at hf ⊢; omega)
    rw [hassoc] at hih
    rcases hr : runGet g (chainDefs first (pre ++ k :: k2 :: post2)) false (pre ++ [k])
      { st with calls := bump st.calls 0 } k2 with ⟨r, l1, st1⟩
    rw [hr] at hih
    simp only at hih
    subst hih
    simp only [runGet] at hr
    simp [runGet, runStep, hlk, hknp, chainDef, Defn.body, Defn.factoryId, Defn.Private,
      Defn.Shared, hr]

/-- C3: for a circular dependency chain over any list of distinct keys (each
key's factory Gets the next one and the final key's factory Gets the first),
Get on the chain's first key on the sealed session fails with the
circular-reference error naming the chain's origin key (the first key) and
the key at which the cycle closed (the final key of the chain, the last one
pushed before re-entry). -/
theorem C3_circular_reference (ks : List Key) (fuel : Nat) (st : RunSt)
    (hne : ks ≠ []) (hnd : ks.Nodup) (hf : 3 * ks.length + 5 ≤ fuel) :
    (runGet fuel (chainDefs (ks.headD "") ks) true [] st (ks.headD "")).1 =
      .error (.cycle (ks.headD "") (ks.getLastD "")) := by
  obtain ⟨k0, rest, rfl⟩ : ∃ k0 rest, ks = k0 :: rest := by
    cases hc : ks with
    | nil => exact absurd hc hne
    | cons k0 rest => exact ⟨k0, rest, rfl⟩
  have hhd : (k0 :: rest).headD "" = k0 := rfl
  rw [hhd]
  have hlk : lookupA (chainDefs k0 (k0 :: rest)) k0 = some (chainDef (rest.headD k0)) := by
    simpa using chain_lookup k0 [] k0 rest (by simpa using hnd)
  cases rest with
  | nil =>
    obtain ⟨m, hm⟩ := Nat.exists_eq_add_of_le (show 5 ≤ fuel by simp at hf; omega)
    rw [Nat.add_comm] at hm
    subst hm
    simp [runGet, runStep, hlk, chainDef, Defn.Private, Defn.Shared, Defn.body,
      Defn.factoryId, List.getLastD]
  | cons k1 rest2 =>
    obtain ⟨m, hm⟩ := Nat.exists_eq_add_of_le (show 3 ≤ fuel by simp at hf; omega)
    rw [Nat.add_comm] at hm
    subst hm
    have hassoc : [k0] ++ k1 :: rest2 = k0 :: k1 :: rest2 := rfl
    have hih := chainCycle k0 rest2 [k0] k1 m { st with calls := bump st.calls 0 }
      (by rw [hassoc]; exact hnd) (by rw [hassoc]; rfl) (by simp at hf ⊢; omega)
    rw [hassoc] at hih
    rcases hr : runGet m (chainDefs k0 (k0 :: k1 :: rest2)) false [k0]
      { st with calls := bump st.calls 0 } k1 with ⟨r, l1, st1⟩
    rw [hr] at hih
    simp only at hih
    subst hih
    simp only [runGet] at hr
    simp [runGet, runStep, hlk, chainDef, Defn.body, Defn.factoryId, Defn.Private,
      Defn.Shared, hr]

/-- C3 witness: the three-service chain s1 -> s2 -> s3 -> s1 panics on
Get("s1") with the cycle error naming s1 (origin) and s3 (where the cycle
closed). -/
theorem C3_witness :
    (runGet 20 (chainDefs "s1" ["s1", "s2", "s3"]) true [] ⟨[], []⟩ "s1").1 =
      .error (.cycle "s1" "s3") := by
  have h := C3_circular_reference ["s1", "s2", "s3"] 20 ⟨[], []⟩ (by decide)
    (by decide) (by decide)
  simpa using h

/-- Sorted by descending priority. -/
def SortedD (l : List (Key × Defn)) : Prop :=
  l.Pairwise (fun a b => b.2.Priority ≤ a.2.Priority)

theorem mem_insertByPriority (x a : Key × Defn) (l : List (Key × Defn)) :
    a ∈ insertByPriority x l ↔ a = x ∨ a ∈ l := by
  induction l with
  | nil => simp [insertByPriority]
  | cons y ys ih =>
    by_cases h : y.2.Priority < x.2.Priority
    · simp [insertByPriority, h]
    · simp only [insertByPriority, h, if_false, List.mem_cons, ih]
      tauto

theorem insertByPriority_sorted (x : Key × Defn) (l : List (Key × Defn))
    (hs : SortedD l) : SortedD (insertByPriority x l) := by
  induction l with
  | nil => simp [insertByPriority, SortedD]
  | cons y ys ih =>
    rw [SortedD, List.pairwise_cons] at hs
    by_cases h : y.2.Priority < x.2.Priority
    · rw [SortedD, insertByPriority, if_pos h, List.pairwise_cons]
      constructor
      · intro z hz
        rcases List.mem_cons.mp hz with hz | hz
        · rw [hz]; exact le_of_lt h
        · exact le_trans (hs.1 z hz) (le_of_lt h)
      · rw [List.pairwise_cons]
        exact hs
    · rw [SortedD, insertByPriority, if_neg h, List.pairwise_cons]
      constructor
      · intro z hz
        rcases (mem_insertByPriority x z ys).mp hz with hz | hz
        · rw [hz]; exact le_of_not_lt h
        · exact hs.1 z hz
      · exact ih hs.2

theorem sortedD_head_dominates (y : Key × Defn) (ys : List (Key × Defn))
    (hs : SortedD (y :: ys)) : ∀ z ∈ y :: ys, z.2.Priority ≤ y.2.Priority := by
  intro z hz
  rcases List.mem_cons.mp hz with hz | hz
  · rw [hz]
  · rw [SortedD, List.pairwise_cons] at hs
    exact hs.1 z hz

theorem filter_insertByPriority (x : Key × Defn) (l : List (Key × Defn)) (q : Int)
    (hs : SortedD l) :
    (insertByPriority x l).filter (fun kd => kd.2.Priority == q) =
      if x.2.Priority == q then
        l.filter (fun kd => kd.2.Priority == q) ++ [x]
      else l.filter (fun kd => kd.2.Priority == q) := by
  induction l with
  | nil =>
    by_cases hx : x.2.Priority = q
    · simp [insertByPriority, List.filter_cons, hx]
    · simp [insertByPriority, List.filter_cons, hx]
  | cons y ys ih =>
    have hs2 : SortedD ys := by
      rw [SortedD, List.pairwise_cons] at hs
      exact hs.2
    by_cases h : y.2.Priority < x.2.Priority
    · rw [insertByPriority, if_pos h]
      by_cases hx : x.2.Priority = q
      · have hempty : (y :: ys).filter (fun kd => kd.2.Priority == q) = [] := by
          rw [List.filter_eq_nil_iff]
          intro z hz
          have hle := sortedD_head_dominates y ys hs z hz
          have hlt : z.2.Priority < q := lt_of_le_of_lt hle (hx ▸ h)
          simp [ne_of_lt hlt]
        rw [List.filter_cons_of_pos (by simp [hx]), hempty, if_pos (by simp [hx])]
        rfl
      · rw [List.filter_cons_of_neg (by simp [hx]), if_neg (by simp [hx])]
    · rw [insertByPriority, if_neg h]
      by_cases hy : y.2.Priority = q
      · rw [List.filter_cons_of_pos (by simp [hy]), List.filter_cons_of_pos (by simp [hy]),
          ih hs2]
        by_cases hx : x.2.Priority = q
        · rw [if_pos (by simp [hx]), if_pos (by simp [hx])]
          rfl
        · rw [if_neg (by simp [hx]), if_neg (by simp [hx])]
      · rw [List.filter_cons_of_neg (by simp [hy]), List.filter_cons_of_neg (by simp [hy]),
          ih hs2]

theorem sortByPriority_foldl_sorted (l acc : List (Key × Defn)) (hs : SortedD acc) :
    SortedD (l.foldl (fun a x => insertByPriority x a) acc) := by
  induction l generalizing acc with
  | nil => simpa using hs
  | cons x xs ih =>
    rw [List.foldl_cons]
    exact ih _ (insertByPriority_sorted x acc hs)

theorem sortByPriority_sorted (l : List (Key × Defn)) : SortedD (sortByPriority l) :=
  sortByPriority_foldl_sorted l [] (by simp [SortedD])

theorem sortByPriority_foldl_filter (l acc : List (Key × Defn)) (q : Int) (hs : SortedD acc) :
    (l.foldl (fun a x => insertByPriority x a) acc).filter (fun kd => kd.2.Priority == q) =
      acc.filter (fun kd => kd.2.Priority == q) ++ l.filter (fun kd => kd.2.Priority == q) := by
  induction l generalizing acc with
  | nil => simp
  | cons x xs ih =>
    rw [List.foldl_cons, ih _ (insertByPriority_sorted x acc hs),
      filter_insertByPriority x acc q hs]
    by_cases hx : x.2.Priority = q
    · rw [if_pos (by simp [hx]), List.filter_cons_of_pos (by simp [hx])]
      simp
    · rw [if_neg (by simp [hx]), List.filter_cons_of_neg (by simp [hx])]

/-- Stability of the priority sort: within each priority class, the sorted
list keeps exactly the elements of the input in their input order. -/
theorem sortByPriority_filter (l : List (Key × Defn)) (q : Int) :
    (sortByPriority l).filter (fun kd => kd.2.Priority == q) =
      l.filter (fun kd => kd.2.Priority == q) := by
  have := sortByPriority_foldl_filter l [] q (by simp [SortedD])
  simpa [sortByPriority] using this

theorem mem_sortByPriority_foldl (l acc : List (Key × Defn)) (a : Key × Defn) :
    a ∈ l.foldl (fun ac x => insertByPriority x ac) acc ↔ a ∈ acc ∨ a ∈ l := by
  induction l generalizing acc with
  | nil => simp
  | cons x xs ih =>
    rw [List.foldl_cons, ih]
    rw [mem_insertByPriority]
    simp only [List.mem_cons]
    tauto

theorem mem_sortByPriority (l : List (Key × Defn)) (a : Key × Defn) :
    a ∈ sortByPriority l ↔ a ∈ l := by
  rw [sortByPriority, mem_sortByPriority_foldl]
  simp

/-- C4 counterexample: two definitions registered in the order k1, k2 with
the same tag and equal priority.  Go map iteration order is unspecified, so
the enumeration [k2, k1] (a permutation of the registered entries) is a
legal iteration of the same registry, and GetTaggedKeys returns its keys in
that enumeration order, not in registration order. -/
theorem C4_counterexample :
    List.Perm
      [("k2", Defn.mk 0 (.lit 1) [("t", "")] 0 false false "factory" none),
       ("k1", Defn.mk 0 (.lit 1) [("t", "")] 0 false false "factory" none)]
      [("k1", Defn.mk 0 (.lit 1) [("t", "")] 0 false false "factory" none),
       ("k2", Defn.mk 0 (.lit 1) [("t", "")] 0 false false "factory" none)] ∧
    getTaggedKeys "t" []
      [("k2", Defn.mk 0 (.lit 1) [("t", "")] 0 false false "factory" none),
       ("k1", Defn.mk 0 (.lit 1) [("t", "")] 0 false false "factory" none)] = ["k2", "k1"] ∧
    getTaggedKeys "t" []
      [("k1", Defn.mk 0 (.lit 1) [("t", "")] 0 false false "factory" none),
       ("k2", Defn.mk 0 (.lit 1) [("t", "")] 0 false false "factory" none)] = ["k1", "k2"] ∧
    (["k2", "k1"] : List Key) ≠ ["k1", "k2"] := by
  refine ⟨?_, by decide, by decide, by decide⟩
  exact List.Perm.swap
    ("k1", Defn.mk 0 (.lit 1) [("t", "")] 0 false false "factory" none)
    ("k2", Defn.mk 0 (.lit 1) [("t", "")] 0 false false "factory" none) []

/-- C4 amended: over whatever enumeration order the definitions map yields,
GetTaggedKeys returns exactly the keys whose definition carries the tag
(with an exact value match when values is non-empty), sorted by descending
priority; the sort is stable with respect to the enumeration order (each
priority class keeps the enumeration order), but that order is the
unspecified Go map iteration order, not registration order. -/
theorem C4_tagged_keys_sorted (tag : String) (values : List String)
    (enum : List (Key × Defn)) :
    getTaggedKeys tag values enum =
      (sortByPriority (enum.filter (fun kd => tagMatches tag values kd.2))).map
        (fun kd => kd.1) ∧
    SortedD (sortByPriority (enum.filter (fun kd => tagMatches tag values kd.2))) ∧
    (∀ q : Int,
      (sortByPriority (enum.filter (fun kd => tagMatches tag values kd.2))).filter
          (fun kd => kd.2.Priority == q) =
        (enum.filter (fun kd => tagMatches tag values kd.2)).filter
          (fun kd => kd.2.Priority == q)) ∧
    (∀ k : Key, k ∈ getTaggedKeys tag values enum ↔
      ∃ d : Defn, (k, d) ∈ enum ∧ tagMatches tag values d = true) := by
  refine ⟨rfl, sortByPriority_sorted _, fun q => sortByPriority_filter _ q, fun k => ?_⟩
  rw [getTaggedKeys, List.mem_map]
  constructor
  · rintro ⟨kd, hmem, hk⟩
    rw [mem_sortByPriority, List.mem_filter] at hmem
    refine ⟨kd.2, ?_, hmem.2⟩
    have h2 : (k, kd.2) = kd := by rw [← hk]
    rw [h2]
    exact hmem.1
  · rintro ⟨d, hmem, hmatch⟩
    refine ⟨(k, d), ?_, rfl⟩
    rw [mem_sortByPriority, List.mem_filter]
    exact ⟨hmem, hmatch⟩

/-- A definition built by newDefinition keeps the factory identity and body
it was given, and has no alias reference yet. -/
theorem newDefinition_ok_fields (fid : Nat) (body : FExp)
    (tl : List (List (String × String))) (d : Defn)
    (h : newDefinition fid body tl = .ok d) :
    d.factoryId = fid ∧ d.body = body ∧ d.AliasOf = none := by
  simp only [newDefinition, bind, Except.bind, pure, Except.pure] at h
  split at h
  · simp at h
  · split at h
    · simp at h
    · split at h
      · simp at h
      · split at h
        · simp at h
        · cases h
          exact ⟨rfl, rfl, rfl⟩

/-- C5: on an unsealed registry, SetAlias fails fast when the key already
names a real (non-alias) definition, fails fast when the target key has no
registered definition, and otherwise stores under the key an alias
definition that copies the target's factory and records AliasOf = target;
conversely SetFactory on a key currently held by an alias succeeds and
replaces the alias with the new real definition. -/
theorem C5_alias_registration (b : Builder) (key target : Key)
    (tagsList : List (List (String × String))) (hres : b.resolved = false) :
    (∀ d0 : Defn, lookupA b.definitions key = some d0 → d0.AliasOf = none →
      setAlias b key target tagsList = .error (.aliasKeyExists key)) ∧
    ((lookupA b.definitions key = none ∨
        ∃ d0 a0, lookupA b.definitions key = some d0 ∧ d0.AliasOf = some a0) →
      lookupA b.definitions target = none →
      setAlias b key target tagsList = .error (.aliasTargetMissing target)) ∧
    (∀ ad nd : Defn, lookupA b.definitions target = some ad →
      (lookupA b.definitions key = none ∨
        ∃ d0 a0, lookupA b.definitions key = some d0 ∧ d0.AliasOf = some a0) →
      newDefinition ad.factoryId ad.body (tagsList ++ [[("alias", "")]]) = .ok nd →
      setAlias b key target tagsList =
        .ok (Builder.mk (setK (setK b.definitions key nd) key (nd.withAliasOf (some ad)))
               b.providers b.resolvers b.resolved,
             nd.withAliasOf (some ad)) ∧
      lookupA (setK (setK b.definitions key nd) key (nd.withAliasOf (some ad))) key =
        some (nd.withAliasOf (some ad)) ∧
      (nd.withAliasOf (some ad)).factoryId = ad.factoryId ∧
      (nd.withAliasOf (some ad)).body = ad.body ∧
      (nd.withAliasOf (some ad)).AliasOf = some ad) ∧
    (∀ (fid : Nat) (body : FExp) (nd2 : Defn),
      newDefinition fid body (tagsList ++ [[("factory", "")]]) = .ok nd2 →
      setFactory b key fid body tagsList =
        .ok (Builder.mk (setK b.definitions key nd2) b.providers b.resolvers b.resolved, nd2) ∧
      lookupA (setK b.definitions key nd2) key = some nd2) := by
  refine ⟨?_, ?_, ?_, ?_⟩
  · intro d0 hk hal
    simp [setAlias, hk, hal]
  · intro hk ht
    rcases hk with hk | ⟨d0, a0, hk, hal⟩
    · simp [setAlias, setAliasChecked, hk, ht]
    · simp [setAlias, setAliasChecked, hk, hal, ht]
  · intro ad nd ht hk hnew
    obtain ⟨hfid, hbody, -⟩ := newDefinition_ok_fields _ _ _ _ hnew
    have hchecked : setAliasChecked b key target tagsList =
        .ok (Builder.mk (setK (setK b.definitions key nd) key (nd.withAliasOf (some ad)))
               b.providers b.resolvers b.resolved,
             nd.withAliasOf (some ad)) := by
      simp [setAliasChecked, ht, setDefinition, hres, hnew]
    have hout : setAlias b key target tagsList =
        .ok (Builder.mk (setK (setK b.definitions key nd) key (nd.withAliasOf (some ad)))
               b.providers b.resolvers b.resolved,
             nd.withAliasOf (some ad)) := by
      rcases hk with hk | ⟨d0, a0, hk, hal⟩
      · rw [setAlias, hk]
        exact hchecked
      · simp only [setAlias, hk, hal]
        exact hchecked
    refine ⟨hout, lookupA_setK_self _ _ _, ?_, ?_, ?_⟩
    · cases nd
      simpa [Defn.withAliasOf, Defn.factoryId] using hfid
    · cases nd
      simpa [Defn.withAliasOf, Defn.body] using hbody
    · cases nd
      simp [Defn.withAliasOf, Defn.AliasOf]
  · intro fid body nd2 hnew
    refine ⟨?_, lookupA_setK_self _ _ _⟩
    simp [setFactory, setDefinition, hres, hnew]

/-- A concrete real definition registered under "a1". -/
def dC5real : Defn := .mk 1 (.lit 2) [("factory", "")] 0 false false "factory" none

/-- The alias definition produced for it (copied factory, alias kind,
AliasOf recorded). -/
def dC5alias : Defn := .mk 1 (.lit 2) [("alias", "")] 0 false false "alias" (some dC5real)

/-- A fresh real definition later stored over the alias key. -/
def dC5new : Defn := .mk 7 (.lit 3) [("factory", "")] 0 false false "factory" none

/-- C5 witness: on a one-entry unsealed registry, aliasing over the real key
fails, aliasing a missing target fails, aliasing onto a fresh key succeeds
copying the factory and recording AliasOf, and a later SetFactory replaces
the alias with the new real definition. -/
theorem C5_witness :
    setAlias (Builder.mk [("a1", dC5real)] [] [] false) "a1" "a1" [] =
      .error (.aliasKeyExists "a1") ∧
    setAlias (Builder.mk [("a1", dC5real)] [] [] false) "x" "nope" [] =
      .error (.aliasTargetMissing "nope") ∧
    setAlias (Builder.mk [("a1", dC5real)] [] [] false) "al" "a1" [] =
      .ok (Builder.mk [("a1", dC5real), ("al", dC5alias)] [] [] false, dC5alias) ∧
    dC5alias.factoryId = dC5real.factoryId ∧
    dC5alias.body = dC5real.body ∧
    dC5alias.AliasOf = some dC5real ∧
    setFactory (Builder.mk [("a1", dC5real), ("al", dC5alias)] [] [] false) "al" 7 (.lit 3) [] =
      .ok (Builder.mk [("a1", dC5real), ("al", dC5new)] [] [] false, dC5new) ∧
    lookupA [("a1", dC5real), ("al", dC5new)] "al" = some dC5new := by
  have h1 := C5_alias_registration (Builder.mk [("a1", dC5real)] [] [] false) "a1" "a1" [] rfl
  have h3 := C5_alias_registration (Builder.mk [("a1", dC5real)] [] [] false) "al" "a1" [] rfl
  have h2 := C5_alias_registration (Builder.mk [("a1", dC5real)] [] [] false) "x" "nope" [] rfl
  have h4 := C5_alias_registration
    (Builder.mk [("a1", dC5real), ("al", dC5alias)] [] [] false) "al" "a1" [] rfl
  refine ⟨h1.1 dC5real rfl rfl, h2.2.1 (Or.inl rfl) rfl, ?_, rfl, rfl, rfl, ?_, ?_⟩
  · exact (h3.2.2.1 dC5real
      (Defn.mk 1 (.lit 2) [("alias", "")] 0 false false "alias" none)
      rfl (Or.inl rfl) rfl).1
  · exact (h4.2.2.2 7 (.lit 3) dC5new rfl).1
  · exact (h4.2.2.2 7 (.lit 3) dC5new rfl).2

/-- Running a callback list applies every callback once, in list order, to
the accumulated registry, and records one event per callback at consecutive
indices. -/
theorem runCallbacks_spec (mk : Nat → CbEvent) (cbs : List Callback) :
    ∀ (i : Nat) (reg : Registry),
    runCallbacks mk i cbs reg =
      (cbs.foldl (fun r f => f r) reg, (List.range' i cbs.length).map mk) := by
  induction cbs with
  | nil => intro i reg; simp [runCallbacks]
  | cons cb rest ih =>
    intro i reg
    simp [runCallbacks, ih, List.range']

/-- C6: the first GetContainer call on an unresolved builder runs all the
provider callbacks, in registration order, before all the resolver
callbacks, in registration order, each exactly once (the trace is the nodup
list prov 0, ..., prov n-1, res 0, ..., res m-1), folds their effects over
the registry, marks the builder resolved, and returns a sealed session with
a fresh empty instance cache over that registry; every subsequent
GetContainer call invokes no callback, keeps the builder unchanged, and
returns a new session with a fresh empty cache over the same, now immutable,
registry (further definition registration fails). -/
theorem C6_get_container_once (b : Builder) (hres : b.resolved = false) :
    (getContainer b).2.1 =
      (List.range b.providers.length).map CbEvent.prov ++
        (List.range b.resolvers.length).map CbEvent.res ∧
    (getContainer b).2.1.Nodup ∧
    (getContainer b).1.resolved = true ∧
    (getContainer b).1.definitions =
      b.resolvers.foldl (fun r f => f r) (b.providers.foldl (fun r f => f r) b.definitions) ∧
    (getContainer b).2.2 = Container.mk (getContainer b).1.definitions [] true [] ∧
    getContainer (getContainer b).1 =
      ((getContainer b).1, [], Container.mk (getContainer b).1.definitions [] true []) ∧
    (∀ (key : Key) (fid : Nat) (body : FExp) (tl : List (List (String × String))),
      setDefinition (getContainer b).1 key fid body tl = .error .resolved) := by
  have h1 : getContainer b =
      (Builder.mk
         (b.resolvers.foldl (fun r f => f r) (b.providers.foldl (fun r f => f r) b.definitions))
         b.providers b.resolvers true,
       (List.range b.providers.length).map CbEvent.prov ++
         (List.range b.resolvers.length).map CbEvent.res,
       Container.mk
         (b.resolvers.foldl (fun r f => f r) (b.providers.foldl (fun r f => f r) b.definitions))
         [] true []) := by
    rw [getContainer, hres]
    simp [runCallbacks_spec, List.range_eq_range']
  have hnodup :
      ((List.range b.providers.length).map CbEvent.prov ++
        (List.range b.resolvers.length).map CbEvent.res).Nodup := by
    refine List.Nodup.append ?_ ?_ ?_
    · exact (List.nodup_range _).map (fun a c h => CbEvent.prov.inj h)
    · exact (List.nodup_range _).map (fun a c h => CbEvent.res.inj h)
    · intro x hx hy
      rw [List.mem_map] at hx hy
      obtain ⟨i, -, hi⟩ := hx
      obtain ⟨j, -, hj⟩ := hy
      rw [← hi] at hj
      cases hj
  refine ⟨by rw [h1], by rw [h1]; exact hnodup, by rw [h1], by rw [h1], by rw [h1], ?_, ?_⟩
  · rw [h1]
    rfl
  · intro key fid body tl
    rw [h1]
    rfl

/-- C6 witness: two providers and one resolver, each adding one definition;
the first GetContainer runs them in order (trace prov 0, prov 1, res 0),
accumulates all three definitions, and a second GetContainer runs nothing
and hands out a fresh empty session over the same registry. -/
theorem C6_witness :
    (getContainer (Builder.mk []
        [fun reg => setK reg "a" dC5real, fun reg => setK reg "b" dC5real]
        [fun reg => setK reg "c" dC5real] false)).2.1 =
      [CbEvent.prov 0, CbEvent.prov 1, CbEvent.res 0] ∧
    (getContainer (Builder.mk []
        [fun reg => setK reg "a" dC5real, fun reg => setK reg "b" dC5real]
        [fun reg => setK reg "c" dC5real] false)).1.definitions =
      [("a", dC5real), ("b", dC5real), ("c", dC5real)] ∧
    getContainer (getContainer (Builder.mk []
        [fun reg => setK reg "a" dC5real, fun reg => setK reg "b" dC5real]
        [fun reg => setK reg "c" dC5real] false)).1 =
      ((getContainer (Builder.mk []
          [fun reg => setK reg "a" dC5real, fun reg => setK reg "b" dC5real]
          [fun reg => setK reg "c" dC5real] false)).1, [],
        Container.mk [("a", dC5real), ("b", dC5real), ("c", dC5real)] [] true []) := by
  have h := C6_get_container_once (Builder.mk []
      [fun reg => setK reg "a" dC5real, fun reg => setK reg "b" dC5real]
      [fun reg => setK reg "c" dC5real] false) rfl
  refine ⟨?_, ?_, ?_⟩
  · exact h.1
  · exact h.2.2.2.1
  · have h6 := h.2.2.2.2.2.1
    have h4 := h.2.2.2.1
    rw [h4] at h6
    exact h6

/-- C8 counterexample: the literal "t" is none of "", "true", "1", "false",
"0", yet parseBoolTag accepts it as true (strconv.ParseBool does), and
definition creation succeeds with Shared = true instead of failing with a
validation error. -/
theorem C8_counterexample :
    parseBoolTag "shared" [("shared", "t")] = .ok true ∧
    (newDefinition 0 (.lit 0) [[("shared", "t")]]).toOption.map Defn.Shared = some true ∧
    ("t" ≠ "" ∧ "t" ≠ "true" ∧ "t" ≠ "1" ∧ "t" ≠ "false" ∧ "t" ≠ "0") :=
  ⟨rfl, rfl, by decide⟩

/-- C8 amended: for the boolean tags shared and private, an absent tag
yields false and a present tag with empty value yields true; a present
value is parsed by strconv.ParseBool, so exactly the literals 1, t, T,
TRUE, true, True yield true and 0, f, F, FALSE, false, False yield false,
and any other non-empty literal fails definition creation with a validation
error naming the offending tag and its value. -/
theorem C8_bool_tag_parsing (tagName : String) (tags : List (String × String)) (v : String)
    (htag : tagName = "shared" ∨ tagName = "private") :
    (lookupA tags tagName = none → parseBoolTag tagName tags = .ok false) ∧
    (lookupA tags tagName = some "" → parseBoolTag tagName tags = .ok true) ∧
    (lookupA tags tagName = some v →
      ((v = "1" ∨ v = "t" ∨ v = "T" ∨ v = "TRUE" ∨ v = "true" ∨ v = "True") →
        parseBoolTag tagName tags = .ok true) ∧
      ((v = "0" ∨ v = "f" ∨ v = "F" ∨ v = "FALSE" ∨ v = "false" ∨ v = "False") →
        parseBoolTag tagName tags = .ok false)) ∧
    (v ≠ "" →
      v ∉ (["1", "t", "T", "TRUE", "true", "True",
            "0", "f", "F", "FALSE", "false", "False"] : List String) →
      parseBoolTag tagName [(tagName, v)] = .error (.invalidBool tagName v) ∧
      newDefinition 0 (.lit 0) [[(tagName, v)]] = .error (.invalidBool tagName v)) := by
  refine ⟨?_, ?_, ?_, ?_⟩
  · intro h
    simp [parseBoolTag, h]
  · intro h
    simp [parseBoolTag, h]
  · intro h
    constructor
    · rintro (rfl | rfl | rfl | rfl | rfl | rfl) <;> simp [parseBoolTag, h, goParseBool]
    · rintro (rfl | rfl | rfl | rfl | rfl | rfl) <;> simp [parseBoolTag, h, goParseBool]
  · intro hne hmem
    simp only [List.mem_cons, List.not_mem_nil, or_false, not_or] at hmem
    obtain ⟨h1, h2, h3, h4, h5, h6, h7, h8, h9, h10, h11, h12⟩ := hmem
    have hparse : parseBoolTag tagName [(tagName, v)] = .error (.invalidBool tagName v) := by
      simp [parseBoolTag, lookupA, hne, goParseBool, h1, h2, h3, h4, h5, h6, h7, h8, h9,
        h10, h11, h12]
    refine ⟨hparse, ?_⟩
    rcases htag with rfl | rfl
    · simp [newDefinition, mergeTags, parseIntegerTag, lookupA, hparse, bind, Except.bind]
    · simp [newDefinition, mergeTags, parseIntegerTag, parseBoolTag, lookupA, hne,
        goParseBool, h1, h2, h3, h4, h5, h6, h7, h8, h9, h10, h11, h12, bind, Except.bind]

/-- C8 witness: for the shared tag, absence yields false, an empty value
yields true, "true" and "1" yield true, "false" and "0" yield false, and the
literal "on" (outside ParseBool's accepted set) fails definition creation
naming the tag and value. -/
theorem C8_witness :
    parseBoolTag "shared" [] = .ok false ∧
    parseBoolTag "shared" [("shared", "")] = .ok true ∧
    parseBoolTag "shared" [("shared", "true")] = .ok true ∧
    parseBoolTag "shared" [("shared", "1")] = .ok true ∧
    parseBoolTag "shared" [("shared", "false")] = .ok false ∧
    parseBoolTag "shared" [("shared", "0")] = .ok false ∧
    parseBoolTag "shared" [("shared", "on")] = .error (.invalidBool "shared" "on") ∧
    newDefinition 0 (.lit 0) [[("shared", "on")]] = .error (.invalidBool "shared" "on") := by
  have habs := (C8_bool_tag_parsing "shared" [] "on" (Or.inl rfl)).1 rfl
  have hemp := (C8_bool_tag_parsing "shared" [("shared", "")] "on" (Or.inl rfl)).2.1 rfl
  have htrue := ((C8_bool_tag_parsing "shared" [("shared", "true")] "true"
    (Or.inl rfl)).2.2.1 rfl).1 (by tauto)
  have hone := ((C8_bool_tag_parsing "shared" [("shared", "1")] "1"
    (Or.inl rfl)).2.2.1 rfl).1 (by tauto)
  have hfalse := ((C8_bool_tag_parsing "shared" [("shared", "false")] "false"
    (Or.inl rfl)).2.2.1 rfl).2 (by tauto)
  have hzero := ((C8_bool_tag_parsing "shared" [("shared", "0")] "0"
    (Or.inl rfl)).2.2.1 rfl).2 (by tauto)
  have hon := (C8_bool_tag_parsing "shared" [("shared", "on")] "on"
    (Or.inl rfl)).2.2.2 (by decide) (by decide)
  exact ⟨habs, hemp, htrue, hone, hfalse, hzero, hon.1, hon.2⟩

/-- A registry with a single public shared definition: the failing input for
the MustBuild dry-run claim. -/
def regC9 : Registry :=
  [("s1", Defn.mk 5 (.lit 7) [("shared", ""), ("factory", "")] 0 true false "factory" none)]

/-- The same registry extended with a private shared definition. -/
def regC9p : Registry :=
  regC9 ++
    [("p", Defn.mk 9 (.lit 1) [("shared", ""), ("private", ""), ("factory", "")]
        0 true true "factory" none)]

/-- C9 code evaluation: MustBuild sweeps every public definition (the
private one is skipped - its factory is never invoked), but with dry = true
the shared instance constructed during the sweep is still cached afterwards:
the dry branch rebinds the local receiver pointer, which does not change the
caller's session, so the cache is not discarded. -/
theorem C9_dry_run_keeps_cache :
    mustBuild 4 regC9 regC9 ⟨[], []⟩ true = .ok ⟨[("s1", 7)], [(5, 1)]⟩ ∧
    mustBuild 4 regC9 regC9 ⟨[], []⟩ false = .ok ⟨[("s1", 7)], [(5, 1)]⟩ ∧
    mustBuild 4 regC9p regC9p ⟨[], []⟩ true = .ok ⟨[("s1", 7)], [(5, 1)]⟩ ∧
    ([("s1", 7)] : List (Key × Nat)) ≠ [] :=
  ⟨by decide, by decide, by decide, by decide⟩

/-- C10: the instance cache is keyed solely by the requested key.  Register
a shared counting factory under `t` and a shared alias `a` of it (SetAlias
copies the factory); on a fresh session, Get(a) and Get(t) each invoke the
copied factory once (two invocations in total of the one factory identity),
yield the distinct values 1 and 2 cached under the alias key and the target
key separately, and later Gets of either key return its own cached value -
requesting the alias never reuses the instance cached under the target, nor
vice versa. -/
theorem C10_alias_target_cached_separately (a t : Key) (hne : a ≠ t)
    (b1 b2 : Builder) (d1 d2 : Defn)
    (h1 : setFactory newContainerBuilder t 0 .cnt [[("shared", "")]] = .ok (b1, d1))
    (h2 : setAlias b1 a t [[("shared", "")]] = .ok (b2, d2)) :
    runGet 3 b2.definitions true [] ⟨[], []⟩ a = (.ok 1, [], ⟨[(a, 1)], [(0, 1)]⟩) ∧
    runGet 3 b2.definitions true [] ⟨[(a, 1)], [(0, 1)]⟩ t =
      (.ok 2, [], ⟨[(a, 1), (t, 2)], [(0, 2)]⟩) ∧
    runGet 3 b2.definitions true [] ⟨[(a, 1), (t, 2)], [(0, 2)]⟩ a =
      (.ok 1, [], ⟨[(a, 1), (t, 2)], [(0, 2)]⟩) ∧
    runGet 3 b2.definitions true [] ⟨[(a, 1), (t, 2)], [(0, 2)]⟩ t =
      (.ok 2, [], ⟨[(a, 1), (t, 2)], [(0, 2)]⟩) ∧
    lookupA ([(a, 1), (t, 2)] : List (Key × Nat)) a = some 1 ∧
    lookupA ([(a, 1), (t, 2)] : List (Key × Nat)) t = some 2 ∧
    (1 : Nat) ≠ 2 ∧
    countOf [(0, 2)] 0 = 2 := by
  have hne2 : ¬(t = a) := fun h => hne h.symm
  have e1 : setFactory newContainerBuilder t 0 .cnt [[("shared", "")]] =
      .ok (Builder.mk
        [(t, Defn.mk 0 .cnt [("shared", ""), ("factory", "")] 0 true false "factory" none)]
        [] [] false,
        Defn.mk 0 .cnt [("shared", ""), ("factory", "")] 0 true false "factory" none) := rfl
  rw [e1] at h1
  simp only [Except.ok.injEq, Prod.mk.injEq] at h1
  obtain ⟨hb1, -⟩ := h1
  subst hb1
  have e2 : setAlias
      (Builder.mk
        [(t, Defn.mk 0 .cnt [("shared", ""), ("factory", "")] 0 true false "factory" none)]
        [] [] false) a t [[("shared", "")]] =
      .ok (Builder.mk
        [(t, Defn.mk 0 .cnt [("shared", ""), ("factory", "")] 0 true false "factory" none),
         (a, Defn.mk 0 .cnt [("shared", ""), ("alias", "")] 0 true false "alias"
           (some (Defn.mk 0 .cnt [("shared", ""), ("factory", "")] 0 true false
             "factory" none)))] [] [] false,
        Defn.mk 0 .cnt [("shared", ""), ("alias", "")] 0 true false "alias"
          (some (Defn.mk 0 .cnt [("shared", ""), ("factory", "")] 0 true false
            "factory" none))) := by
    simp [setAlias, setAliasChecked, setDefinition, newDefinition, mergeTags,
      parseIntegerTag, parseBoolTag, selectKindTag, goParseBool, kindTags, lookupA, setK,
      hne2, bind, Except.bind, pure, Except.pure, newContainerBuilder, Defn.withAliasOf,
      Defn.factoryId, Defn.body, Defn.AliasOf]
  rw [e2] at h2
  simp only [Except.ok.injEq, Prod.mk.injEq] at h2
  obtain ⟨hb2, -⟩ := h2
  subst hb2
  have hta : lookupA
      [(t, Defn.mk 0 .cnt [("shared", ""), ("factory", "")] 0 true false "factory" none),
       (a, Defn.mk 0 .cnt [("shared", ""), ("alias", "")] 0 true false "alias"
         (some (Defn.mk 0 .cnt [("shared", ""), ("factory", "")] 0 true false
           "factory" none)))] a =
      some (Defn.mk 0 .cnt [("shared", ""), ("alias", "")] 0 true false "alias"
        (some (Defn.mk 0 .cnt [("shared", ""), ("factory", "")] 0 true false
          "factory" none))) := by
    simp [lookupA, hne2]
  have htt : lookupA
      [(t, Defn.mk 0 .cnt [("shared", ""), ("factory", "")] 0 true false "factory" none),
       (a, Defn.mk 0 .cnt [("shared", ""), ("alias", "")] 0 true false "alias"
         (some (Defn.mk 0 .cnt [("shared", ""), ("factory", "")] 0 true false
           "factory" none)))] t =
      some (Defn.mk 0 .cnt [("shared", ""), ("factory", "")] 0 true false "factory" none) := by
    simp [lookupA]
  refine ⟨?_, ?_, ?_, ?_, by simp [lookupA], by simp [lookupA, hne], by decide, by decide⟩
  · simp [runGet, runStep, lookupA, setK, bump, countOf, lookupN, setN, hne, hne2,
      Defn.Shared, Defn.Private, Defn.body, Defn.factoryId]
  · simp [runGet, runStep, lookupA, setK, bump, countOf, lookupN, setN, hne, hne2,
      Defn.Shared, Defn.Private, Defn.body, Defn.factoryId]
  · simp [runGet, runStep, lookupA, setK, bump, countOf, lookupN, setN, hne, hne2,
      Defn.Shared, Defn.Private, Defn.body, Defn.factoryId]
  · simp [runGet, runStep, lookupA, setK, bump, countOf, lookupN, setN, hne, hne2,
      Defn.Shared, Defn.Private, Defn.body, Defn.factoryId]

/-- C10 witness: a shared counting factory under "t" with a shared alias
"al"; Get("al") and Get("t") each construct (values 1 and 2), the session
caches them under the two keys separately, and repeated Gets return each
key's own cached value. -/
theorem C10_witness :
    runGet 3
      [("t", Defn.mk 0 .cnt [("shared", ""), ("factory", "")] 0 true false "factory" none),
       ("al", Defn.mk 0 .cnt [("shared", ""), ("alias", "")] 0 true false "alias"
         (some (Defn.mk 0 .cnt [("shared", ""), ("factory", "")] 0 true false "factory" none)))]
      true [] ⟨[], []⟩ "al" = (.ok 1, [], ⟨[("al", 1)], [(0, 1)]⟩) ∧
    runGet 3
      [("t", Defn.mk 0 .cnt [("shared", ""), ("factory", "")] 0 true false "factory" none),
       ("al", Defn.mk 0 .cnt [("shared", ""), ("alias", "")] 0 true false "alias"
         (some (Defn.mk 0 .cnt [("shared", ""), ("factory", "")] 0 true false "factory" none)))]
      true [] ⟨[("al", 1)], [(0, 1)]⟩ "t" = (.ok 2, [], ⟨[("al", 1), ("t", 2)], [(0, 2)]⟩) ∧
    runGet 3
      [("t", Defn.mk 0 .cnt [("shared", ""), ("factory", "")] 0 true false "factory" none),
       ("al", Defn.mk 0 .cnt [("shared", ""), ("alias", "")] 0 true false "alias"
         (some (Defn.mk 0 .cnt [("shared", ""), ("factory", "")] 0 true false "factory" none)))]
      true [] ⟨[("al", 1), ("t", 2)], [(0, 2)]⟩ "al" =
      (.ok 1, [], ⟨[("al", 1), ("t", 2)], [(0, 2)]⟩) ∧
    runGet 3
      [("t", Defn.mk 0 .cnt [("shared", ""), ("factory", "")] 0 true false "factory" none),
       ("al", Defn.mk 0 .cnt [("shared", ""), ("alias", "")] 0 true false "alias"
         (some (Defn.mk 0 .cnt [("shared", ""), ("factory", "")] 0 true false "factory" none)))]
      true [] ⟨[("al", 1), ("t", 2)], [(0, 2)]⟩ "t" =
      (.ok 2, [], ⟨[("al", 1), ("t", 2)], [(0, 2)]⟩) ∧
    lookupA ([("al", 1), ("t", 2)] : List (Key × Nat)) "al" = some 1 ∧
    lookupA ([("al", 1), ("t", 2)] : List (Key × Nat)) "t" = some 2 ∧
    (1 : Nat) ≠ 2 ∧
    countOf [(0, 2)] 0 = 2 :=
  C10_alias_target_cached_separately "al" "t" (by decide)
    (Builder.mk
      [("t", Defn.mk 0 .cnt [("shared", ""), ("factory", "")] 0 true false "factory" none)]
      [] [] false)
    (Builder.mk
      [("t", Defn.mk 0 .cnt [("shared", ""), ("factory", "")] 0 true false "factory" none),
       ("al", Defn.mk 0 .cnt [("shared", ""), ("alias", "")] 0 true false "alias"
         (some (Defn.mk 0 .cnt [("shared", ""), ("factory", "")] 0 true false "factory" none)))]
      [] [] false)
    (Defn.mk 0 .cnt [("shared", ""), ("factory", "")] 0 true false "factory" none)
    (Defn.mk 0 .cnt [("shared", ""), ("alias", "")] 0 true false "alias"
      (some (Defn.mk 0 .cnt [("shared", ""), ("factory", "")] 0 true false "factory" none)))
    rfl rfl

end Di
